import Mathlib

/-!
KDeclarative plotter: sample buffers, normalization, tessellation

A shallow embedding of `PlotData` and `Plotter` from
`src/qmlcontrols/kquickcontrolsaddons/plotter.cpp`, and of the offsets part of
`LanczosRenderer` from `src/qmlcontrols/kgraphicaleffects/lanczos.cpp`.

Modelling conventions

* `qreal` and `float` values are exact rationals (`ℚ`): comparisons, sums and
  quotients are the mathematical ones, rounding is not modelled.
* `std::numeric_limits<qreal>::max()` and `std::numeric_limits<qreal>::min()`
  are the IEEE-754 binary64 constants `DBL_MAX` and `DBL_MIN`; the latter is the
  smallest *positive* normal number.
* Operations whose C++ behaviour is undefined (`QList::removeFirst` on an empty
  list, decrementing an iterator before `constBegin()`, `first()` on an empty
  polygon, a write outside a vector) and divisions by zero return `none`.
* The data-set collection `QList<PlotData *>` is a list of series values in
  insertion order; its entries are distinct objects. Where the code keys a table
  by the address of a series (`Plotter::render`), a series carries a key.
* The polygons that `QPainterPath::toSubpathPolygons` produces are inputs of
  `Plotter.render`; the Lanczos kernel weights are not modelled.
* Signals, redraw requests, logging, the mutex, colours and the OpenGL state
  have no effect on the data and are left out.
-/

set_option autoImplicit false

namespace Plotting

/-- Largest finite binary64 value, `std::numeric_limits<qreal>::max()`. -/
def DBL_MAX : ℚ := (2 ^ 53 - 1) * 2 ^ 971

/-- Smallest positive normal binary64 value, `std::numeric_limits<qreal>::min()`. -/
def DBL_MIN : ℚ := 1 / 2 ^ 1022

/-- The file-level constant `s_defaultSampleSize`. -/
def s_defaultSampleSize : Int := 40

/-- One series: the data members of `PlotData` that the plotter reads or writes. -/
structure PlotData where
  m_values : List ℚ
  m_normalizedValues : List ℚ
  m_min : ℚ
  m_max : ℚ
  m_sampleSize : Int
deriving DecidableEq

/-- Constructor `PlotData::PlotData`: sentinels for min and max, default window,
and a buffer filled with `s_defaultSampleSize` zeros. -/
def PlotData.new : PlotData :=
  { m_values := List.replicate s_defaultSampleSize.toNat 0
    m_normalizedValues := []
    m_min := DBL_MAX
    m_max := DBL_MIN
    m_sampleSize := s_defaultSampleSize }

/-- Accessor `PlotData::max`. -/
def PlotData.max (d : PlotData) : ℚ := d.m_max

/-- Accessor `PlotData::min`. -/
def PlotData.min (d : PlotData) : ℚ := d.m_min

/-- Accessor `PlotData::values`. -/
def PlotData.values (d : PlotData) : List ℚ := d.m_values

/-- The call `QList::removeFirst`: undefined on an empty list. -/
def removeFirst : List ℚ → Option (List ℚ)
  | [] => none
  | _ :: rest => some rest

/-- One iteration of the rescan loop of `PlotData::addSample`; the accumulator
is `(m_max, m_min)`. The second test is only reached when the first fails. -/
def scanStep (acc : ℚ × ℚ) (v : ℚ) : ℚ × ℚ :=
  if v > acc.1 then (v, acc.2)
  else if v < acc.2 then (acc.1, v)
  else acc

/-- The rescan of `PlotData::addSample`, started from the two sentinels. -/
def rescan (vals : List ℚ) : ℚ × ℚ :=
  vals.foldl scanStep (DBL_MIN, DBL_MAX)

/-- Method `PlotData::addSample`. -/
def PlotData.addSample (d : PlotData) (value : ℚ) : Option PlotData :=
  (if d.m_sampleSize ≤ (d.m_values.length : Int) then removeFirst d.m_values
   else some d.m_values).map fun kept =>
    let vals := kept ++ [value]
    { d with m_values := vals, m_max := (rescan vals).1, m_min := (rescan vals).2 }

/-- The shrinking loop of `PlotData::setSampleSize`: the bound
`m_values.size() - size` is re-evaluated before every iteration. -/
def shrinkLoop (size : Int) : Nat → List ℚ → Option (List ℚ)
  | i, [] => if (i : Int) < (([] : List ℚ).length : Int) - size then none else some []
  | i, v :: rest =>
    if (i : Int) < ((v :: rest).length : Int) - size then shrinkLoop size (i + 1) rest
    else some (v :: rest)

/-- The growing loop of `PlotData::setSampleSize`: the bound
`size - m_values.size()` is re-evaluated before every iteration. -/
def growLoop (size : Int) (i : Nat) (vals : List ℚ) : List ℚ :=
  if (i : Int) < size - (vals.length : Int) then growLoop size (i + 1) (0 :: vals)
  else vals
termination_by (size - (vals.length : Int) - (i : Int)).toNat
decreasing_by
  simp only [List.length_cons]
  omega

/-- Method `PlotData::setSampleSize`. The guard returns when the requested size
differs from the current one. -/
def PlotData.setSampleSize (d : PlotData) (size : Int) : Option PlotData :=
  if d.m_sampleSize ≠ size then some d
  else if size < (d.m_values.length : Int) then
    (shrinkLoop size 0 d.m_values).map fun vals =>
      { d with m_values := vals, m_sampleSize := size }
  else if (d.m_values.length : Int) < size then
    some { d with m_values := growLoop size 0 d.m_values, m_sampleSize := size }
  else some { d with m_sampleSize := size }

/-- The data members of `Plotter` that ingestion and normalization use, with the
item height `QQuickItem::height()` the plotter reads. -/
structure Plotter where
  m_plotData : List PlotData
  m_min : ℚ
  m_max : ℚ
  m_sampleSize : Int
  m_stacked : Bool
  m_autoRange : Bool
  height : ℚ
deriving DecidableEq

/-- Constructor `Plotter::Plotter`; a new item has height zero. -/
def Plotter.new : Plotter :=
  { m_plotData := []
    m_min := 0
    m_max := 0
    m_sampleSize := s_defaultSampleSize
    m_stacked := true
    m_autoRange := true
    height := 0 }

/-- Accessor `Plotter::max`. -/
def Plotter.max (p : Plotter) : ℚ := p.m_max

/-- Accessor `Plotter::min`. -/
def Plotter.min (p : Plotter) : ℚ := p.m_min

/-- Accessor `Plotter::sampleSize`. -/
def Plotter.sampleSize (p : Plotter) : Int := p.m_sampleSize

/-- The loop of `Plotter::setSampleSize` over the collection. -/
def resizeAll (size : Int) : List PlotData → Option (List PlotData)
  | [] => some []
  | data :: rest =>
    (data.setSampleSize size).bind fun data1 =>
      (resizeAll size rest).map fun rest1 => data1 :: rest1

/-- Method `Plotter::setSampleSize`. The guard returns when the requested size
differs from the current one. -/
def Plotter.setSampleSize (p : Plotter) (size : Int) : Option Plotter :=
  if p.m_sampleSize ≠ size then some p
  else (resizeAll size p.m_plotData).map fun ds =>
    { p with m_sampleSize := size, m_plotData := ds }

/-- Callback `Plotter::dataSet_append`. -/
def Plotter.dataSet_append (p : Plotter) (item : PlotData) : Plotter :=
  { p with m_plotData := p.m_plotData ++ [item] }

/-- Callback `Plotter::dataSet_clear`. -/
def Plotter.dataSet_clear (p : Plotter) : Plotter :=
  { p with m_plotData := [] }

/-- The local and member extremes that `Plotter::normalizeData` updates
during its first pass. -/
structure Extents where
  m_max : ℚ
  m_min : ℚ
  adjustedMax : ℚ
  adjustedMin : ℚ
deriving DecidableEq

/-- State of the inner loop of the stacked pass: the normalized vector being
filled, and the running `adjustedMax` and `adjustedMin`. -/
structure StackAcc where
  normalized : List ℚ
  adjustedMax : ℚ
  adjustedMin : ℚ
deriving DecidableEq

/-- One iteration of the inner loop of the stacked pass for a series that has a
predecessor: `QVector::value` yields zero outside the vector, the element just
written is the one compared. -/
def stackStep (vals prev : List ℚ) (acc : StackAcc) (i : Nat) : StackAcc :=
  let x := vals.getD i 0 + prev.getD i 0
  { normalized := acc.normalized.set i x
    adjustedMax := if x > acc.adjustedMax then x else acc.adjustedMax
    adjustedMin := if x < acc.adjustedMin then x else acc.adjustedMin }

/-- The update of the global `m_max` and `m_min` from a series' recorded extremes. -/
def globalExtremes (data : PlotData) (e : Extents) : Extents :=
  { e with
    m_max := if data.max > e.m_max then data.max else e.m_max
    m_min := if data.min < e.m_min then data.min else e.m_min }

/-- Body of the `do ... while` loop of the stacked pass for one series. -/
def stackSeries (previousData : Option PlotData) (data : PlotData) (e : Extents) :
    PlotData × Extents :=
  match previousData with
  | some prev =>
    let acc := (List.range data.values.length).foldl
      (stackStep data.values prev.m_normalizedValues)
      { normalized := List.replicate data.values.length 0
        adjustedMax := e.adjustedMax
        adjustedMin := e.adjustedMin }
    ({ data with m_normalizedValues := acc.normalized },
      globalExtremes data
        { e with adjustedMax := acc.adjustedMax, adjustedMin := acc.adjustedMin })
  | none =>
    ({ data with m_normalizedValues := data.values },
      globalExtremes data
        { e with
          adjustedMax := if data.max > e.adjustedMax then data.max else e.adjustedMax
          adjustedMin := if data.min < e.adjustedMin then data.min else e.adjustedMin })

/-- The stacked pass on a collection: the iterator runs from the last series
back to the first, so the series after `data` are visited before it and the
one visited immediately before is the next in insertion order. -/
def stackedPass : List PlotData → Extents → List PlotData × Extents
  | [], e => ([], e)
  | data :: rest, e =>
    let later := stackedPass rest e
    let cur := stackSeries later.1.head? data later.2
    (cur.1 :: later.1, cur.2)

/-- Body of the range-for loop of the unstacked pass for one series. -/
def plainSeries (data : PlotData) (e : Extents) : PlotData × Extents :=
  let e1 : Extents :=
    if data.max > e.m_max then { e with adjustedMax := data.max, m_max := data.max } else e
  let e2 : Extents :=
    if data.min < e1.m_min then { e1 with adjustedMin := data.min, m_min := data.min } else e1
  ({ data with m_normalizedValues := data.values }, e2)

/-- The unstacked pass on a collection, in insertion order. -/
def plainPass : List PlotData → Extents → List PlotData × Extents
  | [], e => ([], e)
  | data :: rest, e =>
    let cur := plainSeries data e
    let later := plainPass rest cur.2
    (cur.1 :: later.1, later.2)

/-- The sentinels `Plotter::normalizeData` starts from. -/
def initialExtents : Extents :=
  { m_max := DBL_MIN, m_min := DBL_MAX, adjustedMax := DBL_MIN, adjustedMin := DBL_MAX }

/-- First pass of `Plotter::normalizeData`: stacking or plain copy. With stacking
on, the `do ... while` loop decrements `constEnd()` before testing anything, which
is undefined on an empty collection. -/
def firstPass (p : Plotter) : Option (List PlotData × Extents) :=
  if p.m_stacked then
    match p.m_plotData with
    | [] => none
    | data :: rest => some (stackedPass (data :: rest) initialExtents)
  else some (plainPass p.m_plotData initialExtents)

/-- Qt's `qFuzzyCompare(double, double)`. -/
def qFuzzyCompare (p1 p2 : ℚ) : Bool :=
  decide (|p1 - p2| * 1000000000000 ≤ Min.min |p1| |p2|)

/-- A division of `qreal`s; a zero divisor is reported. -/
def checkedDiv (a b : ℚ) : Option ℚ :=
  if b = 0 then none else some (a / b)

/-- The padded upper bound `adjustedMax += height()/20`. -/
def paddedMax (p : Plotter) (e : Extents) : ℚ := e.adjustedMax + p.height / 20

/-- The padded lower bound `adjustedMin -= height()/20`. -/
def paddedMin (p : Plotter) (e : Extents) : ℚ := e.adjustedMin - p.height / 20

/-- The scale factor `adjust` of the auto-range branch. -/
def adjustFactor (height adjustedMax adjustedMin : ℚ) : Option ℚ :=
  if qFuzzyCompare (adjustedMax - adjustedMin) 0 then some 1
  else checkedDiv height (adjustedMax - adjustedMin)

/-- One iteration of the rescaling loop of the auto-range branch. -/
def rescaleStep (adjustedMin adjust : ℚ) (normalized : List ℚ) (i : Nat) : List ℚ :=
  normalized.set i ((normalized.getD i 0 - adjustedMin) * adjust)

/-- The rescaling loop of the auto-range branch for one series. -/
def rescaleSeries (adjustedMin adjust : ℚ) (data : PlotData) : PlotData :=
  { data with
    m_normalizedValues := (List.range data.values.length).foldl
      (rescaleStep adjustedMin adjust) data.m_normalizedValues }

/-- Second part of `Plotter::normalizeData`: the auto-range branch, and the
write-back of the members. -/
def secondPass (p : Plotter) (r : List PlotData × Extents) : Option Plotter :=
  if p.m_autoRange then
    (adjustFactor p.height (paddedMax p r.2) (paddedMin p r.2)).map fun adjust =>
      { p with
        m_plotData := r.1.map (rescaleSeries (paddedMin p r.2) adjust)
        m_max := r.2.m_max
        m_min := r.2.m_min }
  else some { p with m_plotData := r.1, m_max := r.2.m_max, m_min := r.2.m_min }

/-- Method `Plotter::normalizeData`. -/
def Plotter.normalizeData (p : Plotter) : Option Plotter :=
  (firstPass p).bind (secondPass p)

/-- The plotter after `QQuickItem` has recorded a new item height. -/
def Plotter.withHeight (p : Plotter) (newHeight : ℚ) : Plotter :=
  { p with height := newHeight }

/-- Override `Plotter::geometryChanged`, for a change of the item height: the
base class records the geometry, then the data is normalized. -/
def Plotter.geometryChanged (p : Plotter) (newHeight : ℚ) : Option Plotter :=
  Plotter.normalizeData (p.withHeight newHeight)

/-- The ingestion loop of `Plotter::addSample`: the `i`-th series receives
`value.value(i)`. -/
def pushSamples (value : List ℚ) : Nat → List PlotData → Option (List PlotData)
  | _, [] => some []
  | i, data :: rest =>
    (data.addSample (value.getD i 0)).bind fun data1 =>
      (pushSamples value (i + 1) rest).map fun rest1 => data1 :: rest1

/-- Method `Plotter::addSample`. -/
def Plotter.addSample (p : Plotter) (value : List ℚ) : Option Plotter :=
  if value.length ≠ p.m_plotData.length then some p
  else (pushSamples value 0 p.m_plotData).bind fun ds =>
    Plotter.normalizeData { p with m_plotData := ds }

/-! ### Specification-side definitions and concrete states -/

/-- A plotter with stacking on and auto-range off holding the series `[1]`, `[2]`
and `[3]`, inserted in that order. -/
def stackExample : Plotter :=
  { m_plotData := [⟨[1], [], 1, 1, 1⟩, ⟨[2], [], 2, 2, 1⟩, ⟨[3], [], 3, 3, 1⟩]
    m_min := 0
    m_max := 0
    m_sampleSize := 1
    m_stacked := true
    m_autoRange := false
    height := 100 }

/-- Two states of a series that differ at most in the normalized buffer. -/
def sameSamples (d d1 : PlotData) : Prop :=
  d1.m_values = d.m_values ∧ d1.m_sampleSize = d.m_sampleSize ∧
    d1.m_min = d.m_min ∧ d1.m_max = d.m_max

/-- A plotter of height zero with auto-range on holding one series whose single
sample, recorded minimum and recorded maximum are all `5`. -/
def flatExample : Plotter :=
  { m_plotData := [⟨[5], [], 5, 5, 1⟩]
    m_min := 0
    m_max := 0
    m_sampleSize := 1
    m_stacked := true
    m_autoRange := true
    height := 0 }

/-- A plotter without stacking and auto-range holding two series of window `2`
with the buffers `[1, 2]` and `[3, 4]`. -/
def pushExample : Plotter :=
  { m_plotData := [⟨[1, 2], [], 1, 2, 2⟩, ⟨[3, 4], [], 3, 4, 2⟩]
    m_min := 0
    m_max := 0
    m_sampleSize := 2
    m_stacked := false
    m_autoRange := false
    height := 100 }

/-- The states of a series that a program can reach from a newly constructed
series by calling `PlotData::addSample` on it, or by calling `Plotter::addSample`
with a vector of the right length on a plotter whose series are all reachable. -/
inductive SeriesReachable : PlotData → Prop
  | new : SeriesReachable PlotData.new
  | addSample (d d1 : PlotData) (value : ℚ) :
      SeriesReachable d → d.addSample value = some d1 → SeriesReachable d1
  | plotterAddSample (p q : Plotter) (value : List ℚ) (d1 : PlotData) :
      (∀ d ∈ p.m_plotData, SeriesReachable d) →
      value.length = p.m_plotData.length →
      p.addSample value = some q → d1 ∈ q.m_plotData → SeriesReachable d1

/-- The rescaled value in the words of the specification: with `lo` and `hi` the
smallest and largest value before scaling, `adjustedMin = lo - height/20` and
`adjustedMax = hi + height/20`, the value becomes
`(value - adjustedMin) * height / (adjustedMax - adjustedMin)`. -/
def specRescaled (lo hi height value : ℚ) : ℚ :=
  (value - (lo - height / 20)) * height / ((hi + height / 20) - (lo - height / 20))

/-- A new plotter (stacking and auto-range on) to which one new series has been
appended. -/
def freshExample : Plotter := Plotter.new.dataSet_append PlotData.new

/-- The value the code leaves in every normalized slot of `freshExample` at
height `20`: `(0 - adjustedMin) * (height / (adjustedMax - adjustedMin))` with the
padded sentinels as bounds. -/
def freshRescaled : ℚ :=
  (0 - (DBL_MAX - 20 / 20)) * (20 / ((DBL_MIN + 20 / 20) - (DBL_MAX - 20 / 20)))

/-- The values before scaling of all series, in collection order. -/
def stackedValues (r : List PlotData) : List ℚ :=
  r.flatMap PlotData.m_normalizedValues

/-- The words of the specification on the global extremes: `max()` is the largest
and `min()` the smallest value among the stacked values of all series. -/
def extremesOfStacked (r : List PlotData) (q : Plotter) : Prop :=
  (q.max ∈ stackedValues r ∧ ∀ x ∈ stackedValues r, x ≤ q.max) ∧
    (q.min ∈ stackedValues r ∧ ∀ x ∈ stackedValues r, q.min ≤ x)

/-- The states of a series that a program can build from a newly constructed
series with the series' own methods `addSample` and `setSampleSize`. -/
inductive SeriesBuilt : PlotData → Prop
  | new : SeriesBuilt PlotData.new
  | addSample (d d1 : PlotData) (value : ℚ) :
      SeriesBuilt d → d.addSample value = some d1 → SeriesBuilt d1
  | setSampleSize (d d1 : PlotData) (size : Int) :
      SeriesBuilt d → d.setSampleSize size = some d1 → SeriesBuilt d1

/-- The states of a plotter that a program can reach from a new plotter by
appending built series, clearing the collection, pushing sample vectors,
requesting a window size and changing the item height. -/
inductive PlotterReachable : Plotter → Prop
  | new : PlotterReachable Plotter.new
  | append (p : Plotter) (item : PlotData) :
      PlotterReachable p → SeriesBuilt item → PlotterReachable (p.dataSet_append item)
  | clear (p : Plotter) : PlotterReachable p → PlotterReachable p.dataSet_clear
  | addSample (p q : Plotter) (value : List ℚ) :
      PlotterReachable p → p.addSample value = some q → PlotterReachable q
  | setSampleSize (p q : Plotter) (size : Int) :
      PlotterReachable p → p.setSampleSize size = some q → PlotterReachable q
  | geometryChanged (p q : Plotter) (newHeight : ℚ) :
      PlotterReachable p → p.geometryChanged newHeight = some q → PlotterReachable q

/-- A sequence of `Plotter::addSample` calls, one per sample vector. -/
def Plotter.addSamples (p : Plotter) : List (List ℚ) → Option Plotter
  | [] => some p
  | value :: rest => (p.addSample value).bind fun q => q.addSamples rest

/-- Forty sample vectors for a plotter with one series: the value `1`, then
thirty-nine times the value `100`. -/
def risingPushes : List (List ℚ) := [1] :: List.replicate 39 [100]

/-- The positions, counted from `constBegin()`, that the iterator of the stacked
pass dereferences: it starts at `constEnd()`, position `i`, and runs
`do { --i; ... *i ... } while (i != constBegin())`; the list is cut after `fuel`
iterations. -/
def derefPositions : Nat → Int → List Int
  | 0, _ => []
  | fuel + 1, i => (i - 1) :: (if i - 1 ≠ 0 then derefPositions fuel (i - 1) else [])

/-- Conversion of a `qreal` to `int`: truncation toward zero. -/
def truncToInt (x : ℚ) : Int := if 0 ≤ x then ⌊x⌋ else ⌈x⌉

/-- The local `lineCount` of `Plotter::render`: `height() / 20 + 1` as an `int`. -/
def lineCount (height : ℚ) : Int := truncToInt (height / 20 + 1)

/-- The gridline loop of `Plotter::render`: two vertices per line. -/
def gridVertices (width : ℚ) (lines : Int) : List (ℚ × ℚ) :=
  (List.range lines.toNat).flatMap fun i =>
    [(0, (i : ℚ) * 20 + 1 / 2), (width, (i : ℚ) * 20 + 1 / 2)]

/-- One iteration of the fill loop of `Plotter::render` over a polygon: the curve
vertex of point `i`, then a baseline vertex halfway to point `i + 1`; the
counter grows by two. The accumulator is the vertex buffer and the counter
`verticesCounts[data].first`. -/
def fillStep (height : ℚ) (p : List (ℚ × ℚ)) (acc : List (ℚ × ℚ) × Int) (i : Nat) :
    List (ℚ × ℚ) × Int :=
  (acc.1 ++ [((p.getD i (0, 0)).1, height - (p.getD i (0, 0)).2),
      (((p.getD i (0, 0)).1 + (p.getD (i + 1) (0, 0)).1) / 2, height)],
    acc.2 + 2)

/-- The fill part of `Plotter::render` for one polygon: the vertex buffer after
it and the recorded fill count. `QPolygonF::first` and `last` are undefined on an
empty polygon. -/
def fillPolygon (height : ℚ) (p : List (ℚ × ℚ)) (vertices : List (ℚ × ℚ)) :
    Option (List (ℚ × ℚ) × Int) :=
  match p.head?, p.getLast? with
  | some first, some last =>
    let looped := (List.range (p.length - 1)).foldl (fillStep height p)
      (vertices ++ [(first.1, height)], 0)
    some (looped.1 ++ [(last.1, height - last.2), (last.1, height)], looped.2 + 3)
  | _, _ => none

/-- One iteration of the stroke loop of `Plotter::render` over a polygon. -/
def strokeStep (height : ℚ) (p : List (ℚ × ℚ)) (acc : List (ℚ × ℚ) × Int) (i : Nat) :
    List (ℚ × ℚ) × Int :=
  (acc.1 ++ [((p.getD i (0, 0)).1, height - (p.getD i (0, 0)).2)], acc.2 + 1)

/-- The stroke part of `Plotter::render` for one polygon: the vertex buffer after
it and the recorded stroke count. -/
def strokePolygon (height : ℚ) (p : List (ℚ × ℚ)) (vertices : List (ℚ × ℚ)) :
    Option (List (ℚ × ℚ) × Int) :=
  match p.getLast? with
  | some last =>
    let looped := (List.range (p.length - 1)).foldl (strokeStep height p) (vertices, 0)
    some (looped.1 ++ [(last.1, height - last.2)], looped.2 + 1)
  | none => none

/-- The vertex buffer and the table `verticesCounts` during tessellation; a
series is identified by a key that stands for its address, and an absent entry
of the `QHash` reads as `(0, 0)`. -/
structure Tessellation where
  vertices : List (ℚ × ℚ)
  verticesCounts : Nat → Int × Int

/-- The first loop over the polygons of a series: each polygon resets the fill
count of the series and appends its fill vertices. -/
def fillPolygons (height : ℚ) (key : Nat) : List (List (ℚ × ℚ)) → Tessellation →
    Option Tessellation
  | [], t => some t
  | p :: rest, t =>
    (fillPolygon height p t.vertices).bind fun r =>
      fillPolygons height key rest
        { vertices := r.1
          verticesCounts := fun k =>
            if k = key then (r.2, (t.verticesCounts k).2) else t.verticesCounts k }

/-- The second loop over the polygons of a series: each polygon resets the
stroke count of the series and appends its stroke vertices. -/
def strokePolygons (height : ℚ) (key : Nat) : List (List (ℚ × ℚ)) → Tessellation →
    Option Tessellation
  | [], t => some t
  | p :: rest, t =>
    (strokePolygon height p t.vertices).bind fun r =>
      strokePolygons height key rest
        { vertices := r.1
          verticesCounts := fun k =>
            if k = key then ((t.verticesCounts k).1, r.2) else t.verticesCounts k }

/-- The tessellation loop of `Plotter::render` over the collection; every series
comes as its key and the polygons `toSubpathPolygons()` produced for it. -/
def tessellate (height : ℚ) : List (Nat × List (List (ℚ × ℚ))) → Tessellation →
    Option Tessellation
  | [], t => some t
  | s :: rest, t =>
    ((fillPolygons height s.1 s.2 t).bind (strokePolygons height s.1 s.2)).bind
      (tessellate height rest)

/-- The primitive kinds passed to `glDrawArrays`. -/
inductive DrawMode
  | lines
  | triangleStrip
  | lineStrip
deriving DecidableEq

/-- One `glDrawArrays(mode, first, count)` call. -/
structure DrawCall where
  mode : DrawMode
  first : Int
  count : Int
deriving DecidableEq

/-- The draw loop of `Plotter::render` over the collection, with the running
`oldCount`. -/
def drawSeries (lines : Int) (verticesCounts : Nat → Int × Int) :
    List Nat → Int × Int → List DrawCall
  | [], _ => []
  | key :: rest, oldCount =>
    { mode := DrawMode.triangleStrip
      first := lines * 2 + oldCount.1 + oldCount.2
      count := (verticesCounts key).1 } ::
    { mode := DrawMode.lineStrip
      first := lines * 2 + (oldCount.1 + (verticesCounts key).1) + oldCount.2
      count := (verticesCounts key).2 } ::
    drawSeries lines verticesCounts rest
      (oldCount.1 + (verticesCounts key).1, oldCount.2 + (verticesCounts key).2)

/-- What `Plotter::render` uploads and draws. -/
structure RenderOutput where
  vertices : List (ℚ × ℚ)
  verticesCounts : Nat → Int × Int
  draws : List DrawCall

/-- The geometry part of `Plotter::render`: gridlines, tessellation of every
series, then the draw calls. The flattened polygons of each series are an input;
the colour uniforms and the framebuffer handling are left out. -/
def Plotter.render (width height : ℚ) (series : List (Nat × List (List (ℚ × ℚ)))) :
    Option RenderOutput :=
  (tessellate height series
    { vertices := gridVertices width (lineCount height)
      verticesCounts := fun _ => (0, 0) }).map fun t =>
    { vertices := t.vertices
      verticesCounts := t.verticesCounts
      draws :=
        { mode := DrawMode.lines, first := 0, count := lineCount height * 2 } ::
          drawSeries (lineCount height) t.verticesCounts (series.map Prod.fst) (0, 0) }

/-- The fill stream of one polygon: what the fill part appends to an empty
buffer. -/
def fillStream (height : ℚ) (p : List (ℚ × ℚ)) : Option (List (ℚ × ℚ)) :=
  (fillPolygon height p []).map Prod.fst

/-- The stroke stream of one polygon: what the stroke part appends to an empty
buffer. -/
def strokeStream (height : ℚ) (p : List (ℚ × ℚ)) : Option (List (ℚ × ℚ)) :=
  (strokePolygon height p []).map Prod.fst

/-- The fill stream in the words of the specification: a baseline vertex at the
first point, then for every point its curve vertex followed by the baseline
vertex at the same `x`. -/
def specFillStream (height : ℚ) (p : List (ℚ × ℚ)) : Option (List (ℚ × ℚ)) :=
  p.head?.map fun first =>
    (first.1, height) :: p.flatMap fun pt => [(pt.1, height - pt.2), (pt.1, height)]

/-- The polygon with the two points `(0, 0)` and `(2, 0)`. -/
def twoPointPolygon : List (ℚ × ℚ) := [(0, 0), (2, 0)]

/-- One `cubicTo(c1, c2, endPoint)` element of a `QPainterPath`. -/
structure CubicSegment where
  c1 : ℚ × ℚ
  c2 : ℚ × ℚ
  endPoint : ℚ × ℚ
deriving DecidableEq

/-- A `QPainterPath` built by one `moveTo` followed by `cubicTo` calls. -/
structure PainterPath where
  start : ℚ × ℚ
  segments : List CubicSegment
deriving DecidableEq

/-- The constant `matrix` of `Plotter::interpolate`, row by row. -/
def catmullRomMatrix : List (List ℚ) :=
  [[0, 1, 0, 0], [-1 / 6, 1, 1 / 6, 0], [0, 1 / 6, 1, -1 / 6], [0, 0, 1, 0]]

/-- Entry `(r, c)` of a `QMatrix4x4` given by its rows. -/
def entry (m : List (List ℚ)) (r c : Nat) : ℚ := (m.getD r []).getD c 0

/-- The product of two `QMatrix4x4`, entry `(r, c)`. -/
def matMul (a b : List (List ℚ)) (r c : Nat) : ℚ :=
  entry a r 0 * entry b 0 c + entry a r 1 * entry b 1 c + entry a r 2 * entry b 2 c +
    entry a r 3 * entry b 3 c

/-- The matrix `points` of one iteration of `Plotter::interpolate`. -/
def controlPoints (p : List ℚ) (xDelta x : ℚ) (i : Nat) : List (List ℚ) :=
  [[x, p.getD (i - 1) 0, 0, 0],
    [x + xDelta * 1, p.getD (i + 0) 0, 0, 0],
    [x + xDelta * 2, p.getD (i + 1) 0, 0, 0],
    [x + xDelta * 3, p.getD (i + 2) 0, 0, 0]]

/-- One iteration of the loop of `Plotter::interpolate`; the accumulator is the
running `x` and the segments appended so far. -/
def interpolateStep (p : List ℚ) (xDelta : ℚ) (acc : ℚ × List CubicSegment) (i : Nat) :
    ℚ × List CubicSegment :=
  (acc.1 + xDelta,
    acc.2 ++ [{ c1 := (matMul catmullRomMatrix (controlPoints p xDelta acc.1 i) 1 0,
                  matMul catmullRomMatrix (controlPoints p xDelta acc.1 i) 1 1)
                c2 := (matMul catmullRomMatrix (controlPoints p xDelta acc.1 i) 2 0,
                  matMul catmullRomMatrix (controlPoints p xDelta acc.1 i) 2 1)
                endPoint := (matMul catmullRomMatrix (controlPoints p xDelta acc.1 i) 3 0,
                  matMul catmullRomMatrix (controlPoints p xDelta acc.1 i) 3 1) }])

/-- Method `Plotter::interpolate`: `p[0]` is undefined on an empty vector, and the
division by `p.count() - 3` is reported when that is zero. The loop runs for
`i = 1, ..., p.count() - 3`. -/
def Plotter.interpolate (p : List ℚ) (x0 x1 : ℚ) : Option PainterPath :=
  (checkedDiv (x1 - x0) ((p.length : ℚ) - 3)).bind fun xDelta =>
    p.head?.map fun p0 =>
      { start := (x0, p0)
        segments := ((List.range' 1 (p.length - 3)).foldl (interpolateStep p xDelta)
          (x0 - xDelta, [])).2 }

/-- Four normalized samples whose first value differs from the second. -/
def kinkSamples : List ℚ := [5, 0, 0, 0]

/-- Closed form of the vertices the fill part appends for a polygon. -/
def fillVertices (height : ℚ) (p : List (ℚ × ℚ)) : List (ℚ × ℚ) :=
  ((p.getD 0 (0, 0)).1, height) ::
    (((List.range (p.length - 1)).flatMap fun i =>
      [((p.getD i (0, 0)).1, height - (p.getD i (0, 0)).2),
        (((p.getD i (0, 0)).1 + (p.getD (i + 1) (0, 0)).1) / 2, height)]) ++
    [((p.getD (p.length - 1) (0, 0)).1, height - (p.getD (p.length - 1) (0, 0)).2),
      ((p.getD (p.length - 1) (0, 0)).1, height)])

/-- Closed form of the vertices the stroke part appends for a polygon. -/
def strokeVertices (height : ℚ) (p : List (ℚ × ℚ)) : List (ℚ × ℚ) :=
  ((List.range (p.length - 1)).map fun i =>
      ((p.getD i (0, 0)).1, height - (p.getD i (0, 0)).2)) ++
    [((p.getD (p.length - 1) (0, 0)).1, height - (p.getD (p.length - 1) (0, 0)).2)]

/-- The vertices of the buffer that a draw call covers: `count` vertices from
position `first` on. -/
def slice (vertices : List (ℚ × ℚ)) (call : DrawCall) : List (ℚ × ℚ) :=
  (vertices.drop call.first.toNat).take call.count.toNat

/-- The layout C17 describes, for series with one polygon each: from position
`start` on, the draw calls come in pairs; the fill call of a series starts where
the previous range ended, has the number of fill vertices of the series as its
count and covers exactly those vertices, the stroke call starts where the fill
range ends and does the same for the stroke vertices, and the next pair starts
where the stroke range ends. -/
def rangesCover (height : ℚ) (vertices : List (ℚ × ℚ)) :
    Int → List (Nat × List (ℚ × ℚ)) → List DrawCall → Prop
  | _, [], [] => True
  | start, s :: rest, fill :: stroke :: calls =>
    fill.mode = DrawMode.triangleStrip ∧ fill.first = start ∧ 0 ≤ start ∧
      fill.count = ((fillVertices height s.2).length : Int) ∧
      slice vertices fill = fillVertices height s.2 ∧
      stroke.mode = DrawMode.lineStrip ∧ stroke.first = fill.first + fill.count ∧
      stroke.count = ((strokeVertices height s.2).length : Int) ∧
      slice vertices stroke = strokeVertices height s.2 ∧
      rangesCover height vertices (stroke.first + stroke.count) rest calls
  | _, _, _ => False

/-- Two series with the keys `7` and `9`, the first with a polygon of two points
and the second with a polygon of three points. -/
def renderExample : List (Nat × List (ℚ × ℚ)) :=
  [(7, [(0, 0), (2, 0)]), (9, [(0, 1), (1, 2), (2, 1)])]

/-- The values of `Qt::Orientation`. -/
inductive Orientation
  | horizontal
  | vertical
deriving DecidableEq

/-- Qt's `qBound(min, val, max)`. -/
def qBound (lo val hi : Int) : Int := Max.max lo (Min.min hi val)

/-- The `size` that `LanczosRenderer::createKernel` reports for the ratio
`delta`: `sampleCount = qBound(3, qCeil(delta * a) * 2 + 1 - 2, 29)` with
`a = 2`, `center = sampleCount / 2`, `kernelSize = center + 1`. The kernel
weights themselves are not modelled. -/
def kernelSize (delta : ℚ) : Int :=
  (qBound 3 (⌈delta * 2⌉ * 2 + 1 - 2) 29) / 2 + 1

/-- Method `LanczosRenderer::createOffsets`: sixteen zero vectors of which the
first `count` are overwritten; a count above sixteen writes outside the vector
and the divisions `i / width` need a non-zero width. -/
def createOffsets (count : Int) (width : ℚ) (direction : Orientation) :
    Option (List (ℚ × ℚ)) :=
  if 16 < count then none
  else if 0 < count ∧ width = 0 then none
  else some ((List.range 16).map fun (i : Nat) =>
    if (i : Int) < count then
      (if direction = Orientation.horizontal then ((i : ℚ) / width, 0)
       else (0, (i : ℚ) / width))
    else (0, 0))

/-- The uniform arrays `offsets` that `LanczosRenderer::render` uploads. -/
structure LanczosUploads where
  firstPass : List (ℚ × ℚ)
  secondPass : List (ℚ × ℚ)
deriving DecidableEq

/-- The offsets part of `LanczosRenderer::render` for a source texture and a
target of the given sizes: the local `offsets` is assigned once, before the first
pass; the value the second `createOffsets` call returns is not stored. -/
def LanczosRenderer.render (sourceWidth sourceHeight targetWidth : Int) :
    Option LanczosUploads :=
  (checkedDiv (sourceWidth : ℚ) (targetWidth : ℚ)).bind fun dx =>
    (createOffsets (kernelSize dx) (sourceWidth : ℚ) Orientation.horizontal).bind
      fun offsets =>
        (createOffsets 16 (sourceHeight : ℚ) Orientation.vertical).map fun _ =>
          { firstPass := offsets, secondPass := offsets }

/-! ### Facts about the sentinels -/

theorem DBL_MIN_pos : 0 < DBL_MIN := by
  unfold DBL_MIN
  positivity

theorem DBL_MIN_lt_one : DBL_MIN < 1 := by
  unfold DBL_MIN
  rw [div_lt_one (by positivity)]
  exact one_lt_pow₀ (by norm_num) (by norm_num)

theorem one_lt_DBL_MAX : 1 < DBL_MAX := by
  unfold DBL_MAX
  have h : (1 : ℚ) ≤ 2 ^ 971 := one_le_pow₀ (by norm_num)
  have h2 : (1 : ℚ) < 2 ^ 53 - 1 := by norm_num
  nlinarith

theorem new_values : PlotData.new.m_values = List.replicate 40 0 := rfl

theorem new_sampleSize : PlotData.new.m_sampleSize = 40 := rfl

theorem removeFirst_replicate (n : Nat) (x : ℚ) :
    removeFirst (List.replicate (n + 1) x) = some (List.replicate n x) := rfl

theorem scan_zeros (n : Nat) :
    (List.replicate (n + 1) (0 : ℚ)).foldl scanStep (DBL_MIN, DBL_MAX) = (DBL_MIN, 0) := by
  induction n with
  | zero =>
    have h1 : ¬ (0 : ℚ) > DBL_MIN := not_lt.mpr DBL_MIN_pos.le
    have h2 : (0 : ℚ) < DBL_MAX := lt_trans one_pos one_lt_DBL_MAX
    simp [scanStep, h1, h2]
  | succ n ih =>
    rw [List.replicate_succ', List.foldl_append, ih]
    have h1 : ¬ (0 : ℚ) > DBL_MIN := not_lt.mpr DBL_MIN_pos.le
    simp [scanStep, h1]

/-! ### `PlotData::addSample` -/

theorem addSample_full (d : PlotData) (value v : ℚ) (rest : List ℚ)
    (hv : d.m_values = v :: rest) (hfull : d.m_sampleSize ≤ (d.m_values.length : Int)) :
    d.addSample value = some
      { d with
        m_values := rest ++ [value]
        m_max := (rescan (rest ++ [value])).1
        m_min := (rescan (rest ++ [value])).2 } := by
  unfold PlotData.addSample
  rw [if_pos hfull, hv]
  rfl

theorem addSample_short (d : PlotData) (value : ℚ)
    (hshort : (d.m_values.length : Int) < d.m_sampleSize) :
    d.addSample value = some
      { d with
        m_values := d.m_values ++ [value]
        m_max := (rescan (d.m_values ++ [value])).1
        m_min := (rescan (d.m_values ++ [value])).2 } := by
  unfold PlotData.addSample
  rw [if_neg (not_le.mpr hshort)]
  rfl

/-- C1, evaluated on a new series that receives the single sample `-3`: the
buffer then holds 39 zeros and `-3`, so its largest value is `0`, while `max()`
returns the sentinel `DBL_MIN`, which is not `0`. -/
theorem addSample_max_not_largest :
    ∃ d, PlotData.new.addSample (-3) = some d ∧
      d.values = List.replicate 39 0 ++ [-3] ∧
      (0 : ℚ) ∈ d.values ∧ (∀ v ∈ d.values, v ≤ 0) ∧
      d.max = DBL_MIN ∧ d.max ≠ 0 ∧ d.min = -3 := by
  have hfull : PlotData.new.m_sampleSize ≤ (PlotData.new.m_values.length : Int) := by
    rw [new_values, new_sampleSize]
    simp
  have hscan : rescan (List.replicate 39 0 ++ [-3]) = (DBL_MIN, -3) := by
    unfold rescan
    rw [List.foldl_append, scan_zeros 38]
    have h1 : ¬ (-3 : ℚ) > DBL_MIN := not_lt.mpr (le_trans (by norm_num) DBL_MIN_pos.le)
    simp [scanStep, h1]
  have hadd : PlotData.new.addSample (-3) =
      some ⟨List.replicate 39 0 ++ [-3], [], -3, DBL_MIN, 40⟩ := by
    rw [addSample_full PlotData.new (-3) 0 (List.replicate 39 0) rfl hfull, hscan]
    rfl
  refine ⟨_, hadd, rfl, ?_, ?_, rfl, DBL_MIN_pos.ne.symm, rfl⟩
  · simp only [PlotData.values, List.mem_append, List.mem_replicate]
    exact Or.inl ⟨by norm_num, trivial⟩
  · intro v hv
    simp only [PlotData.values, List.mem_append, List.mem_replicate, List.mem_singleton] at hv
    rcases hv with ⟨_, h⟩ | h <;> (subst h; norm_num)

/-- C6: on a non-empty buffer at least as long as the window, `addSample` drops
the first sample and appends the value after the others, which keep their order;
on a buffer shorter than the window it only appends the value. -/
theorem addSample_buffer (d : PlotData) (value : ℚ) :
    (d.m_values ≠ [] → d.m_sampleSize ≤ (d.m_values.length : Int) →
      ∃ d1, d.addSample value = some d1 ∧ d1.values = d.values.tail ++ [value]) ∧
    ((d.m_values.length : Int) < d.m_sampleSize →
      ∃ d1, d.addSample value = some d1 ∧ d1.values = d.values ++ [value]) := by
  constructor
  · intro hne hfull
    obtain ⟨v, rest, hv⟩ := List.exists_cons_of_ne_nil hne
    refine ⟨_, addSample_full d value v rest hv hfull, ?_⟩
    simp [PlotData.values, hv]
  · intro hshort
    exact ⟨_, addSample_short d value hshort, rfl⟩

/-- C6 at two series: window 2 with buffer `[1, 2]`, and window 3 with the same
buffer. -/
theorem addSample_buffer_witness :
    (∃ d1, PlotData.addSample ⟨[1, 2], [], 1, 2, 2⟩ 7 = some d1 ∧ d1.values = [2, 7]) ∧
    (∃ d1, PlotData.addSample ⟨[1, 2], [], 1, 2, 3⟩ 7 = some d1 ∧ d1.values = [1, 2, 7]) :=
  ⟨(addSample_buffer ⟨[1, 2], [], 1, 2, 2⟩ 7).1 (by simp) (by simp),
   (addSample_buffer ⟨[1, 2], [], 1, 2, 3⟩ 7).2 (by simp)⟩

/-! ### `Plotter::addSample` with a vector of the wrong length -/

/-- C2: a sample vector whose length differs from the number of data sets leaves
the whole plotter state as it was: every series with its buffer, min, max and
normalized buffer, and the global min and max. -/
theorem addSample_length_mismatch (p : Plotter) (value : List ℚ)
    (h : value.length ≠ p.m_plotData.length) : p.addSample value = some p := by
  unfold Plotter.addSample
  rw [if_pos h]

/-- C2 at a plotter with one new series and a vector of two values. -/
theorem addSample_length_mismatch_witness :
    [(1 : ℚ), 2].length ≠ (Plotter.new.dataSet_append PlotData.new).m_plotData.length ∧
    (Plotter.new.dataSet_append PlotData.new).addSample [1, 2] =
      some (Plotter.new.dataSet_append PlotData.new) :=
  ⟨by simp [Plotter.dataSet_append, Plotter.new],
   addSample_length_mismatch _ _ (by simp [Plotter.dataSet_append, Plotter.new])⟩

/-! ### Index-wise loops over a vector -/

/-- A loop `for i < n` that overwrites element `i` with a function of `i` and of
its current value: element `j` of the result. -/
theorem foldl_set_getElem? (h : Nat → ℚ → ℚ) (n : Nat) (l : List ℚ) (j : Nat) :
    ((List.range n).foldl (fun acc i => acc.set i (h i (acc.getD i 0))) l)[j]? =
      if j < n then (l[j]?).map (h j) else l[j]? := by
  induction n generalizing j with
  | zero => simp
  | succ n ih =>
    rw [List.range_succ, List.foldl_append]
    simp only [List.foldl_cons, List.foldl_nil]
    rw [List.getElem?_set']
    have hn := ih n
    rw [if_neg (lt_irrefl n)] at hn
    by_cases hj : n = j
    · subst hj
      rw [if_pos rfl, if_pos (Nat.lt_succ_self n), List.getD_eq_getElem?_getD, hn]
      cases l[n]? <;> rfl
    · rw [if_neg hj, ih j]
      have : j < n + 1 ↔ j < n := by omega
      simp only [this]

theorem foldl_set_length (h : Nat → ℚ → ℚ) (n : Nat) (l : List ℚ) :
    ((List.range n).foldl (fun acc i => acc.set i (h i (acc.getD i 0))) l).length =
      l.length := by
  induction n with
  | zero => simp
  | succ n ih =>
    rw [List.range_succ, List.foldl_append]
    simp only [List.foldl_cons, List.foldl_nil, List.length_set]
    exact ih

/-- The rescaling loop on a vector as long as the sample buffer is a map. -/
theorem rescale_eq_map (adjustedMin adjust : ℚ) (n : Nat) (l : List ℚ) (hl : l.length = n) :
    (List.range n).foldl (rescaleStep adjustedMin adjust) l =
      l.map fun x => (x - adjustedMin) * adjust := by
  apply List.ext_getElem?
  intro j
  have key := foldl_set_getElem? (fun _ x => (x - adjustedMin) * adjust) n l j
  have hstep : (fun acc i => List.set acc i ((acc.getD i 0 - adjustedMin) * adjust)) =
      rescaleStep adjustedMin adjust := rfl
  rw [hstep] at key
  rw [key, List.getElem?_map]
  split
  · rfl
  · rename_i hj
    rw [List.getElem?_eq_none (by omega)]
    rfl

/-- The inner loop of the stacked pass only changes `normalized` index-wise. -/
theorem foldl_stackStep_normalized (vals prev : List ℚ) (is : List Nat) (acc : StackAcc) :
    (is.foldl (stackStep vals prev) acc).normalized =
      is.foldl (fun l i => l.set i ((fun k _ => vals.getD k 0 + prev.getD k 0) i (l.getD i 0)))
        acc.normalized := by
  induction is generalizing acc with
  | nil => rfl
  | cons i rest ih =>
    simp only [List.foldl_cons]
    rw [ih]
    rfl

/-! ### The stacked pass -/

theorem stackSeries_normalized_none (d : PlotData) (e : Extents) :
    (stackSeries none d e).1.m_normalizedValues = d.m_values := rfl

theorem stackSeries_normalized_length (prev : PlotData) (d : PlotData) (e : Extents) :
    (stackSeries (some prev) d e).1.m_normalizedValues.length = d.m_values.length := by
  simp only [stackSeries, PlotData.values]
  rw [foldl_stackStep_normalized]
  exact (foldl_set_length
    (fun k _ => d.m_values.getD k 0 + prev.m_normalizedValues.getD k 0) _ _).trans
    (List.length_replicate _ _)

theorem stackSeries_normalized_some (prev : PlotData) (d : PlotData) (e : Extents) (j : Nat)
    (hj : j < d.m_values.length) :
    (stackSeries (some prev) d e).1.m_normalizedValues[j]? =
      some (d.m_values.getD j 0 + prev.m_normalizedValues.getD j 0) := by
  simp only [stackSeries, PlotData.values]
  rw [foldl_stackStep_normalized]
  refine (foldl_set_getElem?
    (fun k _ => d.m_values.getD k 0 + prev.m_normalizedValues.getD k 0) _ _ j).trans ?_
  rw [if_pos hj, List.getElem?_eq_getElem (by simpa using hj)]
  rfl

theorem stackedPass_length (ds : List PlotData) (e : Extents) :
    (stackedPass ds e).1.length = ds.length := by
  induction ds with
  | nil => rfl
  | cons d rest ih => simp [stackedPass, ih]

theorem stackedPass_drop (ds : List PlotData) (e : Extents) (k : Nat) :
    (stackedPass ds e).1.drop k = (stackedPass (ds.drop k) e).1 := by
  induction k generalizing ds with
  | zero => rfl
  | succ k ih =>
    cases ds with
    | nil => rfl
    | cons d rest => exact ih rest

theorem stackedPass_head (L : Nat) (ds : List PlotData) (e : Extents)
    (hL : ∀ d ∈ ds, d.m_values.length = L) (d1 : PlotData)
    (h1 : (stackedPass ds e).1.head? = some d1) :
    d1.m_normalizedValues.length = L ∧
      ∀ i, i < L → d1.m_normalizedValues[i]? =
        some ((ds.map fun s => s.m_values.getD i 0).sum) := by
  induction ds generalizing d1 with
  | nil => simp [stackedPass] at h1
  | cons d rest ih =>
    have hd : d.m_values.length = L := hL d (List.mem_cons_self d rest)
    have hrest : ∀ s ∈ rest, s.m_values.length = L :=
      fun s hs => hL s (List.mem_cons_of_mem d hs)
    simp only [stackedPass, List.head?_cons, Option.some.injEq] at h1
    subst h1
    cases hprev : (stackedPass rest e).1.head? with
    | none =>
      have hnil : rest = [] := by
        have h0 := stackedPass_length rest e
        rw [List.head?_eq_none_iff] at hprev
        rw [hprev] at h0
        exact List.length_eq_zero.mp h0.symm
      subst hnil
      rw [stackSeries_normalized_none]
      refine ⟨hd, fun i hi => ?_⟩
      rw [List.getElem?_eq_getElem (by omega)]
      simp [List.getD_eq_getElem?_getD, List.getElem?_eq_getElem (show i < d.m_values.length by omega)]
    | some prev =>
      obtain ⟨_, hsum⟩ := ih hrest prev hprev
      refine ⟨by rw [stackSeries_normalized_length, hd], fun i hi => ?_⟩
      rw [stackSeries_normalized_some prev d _ i (by omega)]
      simp [List.getD_eq_getElem?_getD, hsum i hi]

/-- The stacked pass without auto-range: what `normalizeData` returns. -/
theorem normalizeData_stacked_eq (p : Plotter) (hs : p.m_stacked = true)
    (ha : p.m_autoRange = false) (hne : p.m_plotData ≠ []) :
    p.normalizeData = some
      { p with
        m_plotData := (stackedPass p.m_plotData initialExtents).1
        m_max := (stackedPass p.m_plotData initialExtents).2.m_max
        m_min := (stackedPass p.m_plotData initialExtents).2.m_min } := by
  obtain ⟨d, rest, hds⟩ := List.exists_cons_of_ne_nil hne
  simp [Plotter.normalizeData, firstPass, secondPass, hs, ha, hds]

/-- C3: with stacking on and auto-range off, on a non-empty collection whose
series all hold `L` samples, `normalizeData` returns, keeps the number of series,
and leaves in the `k`-th series a normalized buffer of length `L` whose entry `i` is
the sum of the raw values at `i` of the series `k`, `k+1`, ... up to the last. -/
theorem normalizeData_stacked_sums (p : Plotter) (L : Nat) (hs : p.m_stacked = true)
    (ha : p.m_autoRange = false) (hne : p.m_plotData ≠ [])
    (hL : ∀ d ∈ p.m_plotData, d.m_values.length = L) :
    ∃ q, p.normalizeData = some q ∧ q.m_plotData.length = p.m_plotData.length ∧
      ∀ k d1, q.m_plotData[k]? = some d1 →
        d1.m_normalizedValues.length = L ∧
        ∀ i, i < L → d1.m_normalizedValues[i]? =
          some (((p.m_plotData.drop k).map fun s => s.m_values.getD i 0).sum) := by
  refine ⟨_, normalizeData_stacked_eq p hs ha hne, stackedPass_length _ _, ?_⟩
  intro k d1 hk
  have hhead : (stackedPass (p.m_plotData.drop k) initialExtents).1.head? = some d1 := by
    rw [← stackedPass_drop, List.head?_drop]
    exact hk
  exact stackedPass_head L (p.m_plotData.drop k) initialExtents
    (fun s hs => hL s (List.mem_of_mem_drop hs)) d1 hhead

theorem singleton_of_getElem? (l : List ℚ) (x : ℚ) (hl : l.length = 1) (h0 : l[0]? = some x) :
    l = [x] := by
  obtain ⟨y, hy⟩ := List.length_eq_one.mp hl
  subst hy
  simpa using h0

/-- C3 at the series `A = [1]`, `B = [2]`, `C = [3]`: the normalized buffers are
`[6]`, `[5]` and `[3]`. -/
theorem normalizeData_stacked_sums_witness :
    ∃ q, stackExample.normalizeData = some q ∧
      q.m_plotData.map PlotData.m_normalizedValues = [[6], [5], [3]] := by
  obtain ⟨q, hq, hlen, hsum⟩ := normalizeData_stacked_sums stackExample 1 rfl rfl
    (by simp [stackExample]) (by simp [stackExample])
  obtain ⟨a, b, c, habc⟩ := List.length_eq_three.mp hlen
  refine ⟨q, hq, ?_⟩
  obtain ⟨ha1, ha2⟩ := hsum 0 a (by simp [habc])
  obtain ⟨hb1, hb2⟩ := hsum 1 b (by simp [habc])
  obtain ⟨hc1, hc2⟩ := hsum 2 c (by simp [habc])
  have ha := singleton_of_getElem? _ _ ha1 (ha2 0 (by norm_num))
  have hb := singleton_of_getElem? _ _ hb1 (hb2 0 (by norm_num))
  have hc := singleton_of_getElem? _ _ hc1 (hc2 0 (by norm_num))
  rw [habc]
  simp only [List.map_cons, List.map_nil, ha, hb, hc]
  norm_num [stackExample]

/-! ### The two `setSampleSize` guards -/

theorem series_setSampleSize_of_ne (d : PlotData) (size : Int) (h : d.m_sampleSize ≠ size) :
    d.setSampleSize size = some d := by
  unfold PlotData.setSampleSize
  rw [if_pos h]

theorem plotter_setSampleSize_of_ne (p : Plotter) (size : Int) (h : p.m_sampleSize ≠ size) :
    p.setSampleSize size = some p := by
  unfold Plotter.setSampleSize
  rw [if_pos h]

/-- C4, evaluated on a new plotter holding one new series, with the request
`setSampleSize(10)`: the call returns at the guard, `sampleSize()` still returns
`40` and the series still has window size `40`. -/
theorem setSampleSize_keeps_old_size :
    ∃ q, (Plotter.new.dataSet_append PlotData.new).setSampleSize 10 = some q ∧
      q.sampleSize = 40 ∧ q.sampleSize ≠ 10 ∧
      q.m_plotData.map PlotData.m_sampleSize = [40] :=
  ⟨_, plotter_setSampleSize_of_ne _ 10 (by decide), rfl, by decide, rfl⟩

/-- C5, evaluated on a new series (window `40`, buffer of `40` zeros) with the
request `setSampleSize(10)`: the call returns at the guard and the buffer keeps
its `40` elements. -/
theorem setSampleSize_keeps_buffer :
    ∃ d, PlotData.new.setSampleSize 10 = some d ∧
      d.m_values = PlotData.new.m_values ∧ d.m_values.length = 40 ∧ d.m_sampleSize = 40 :=
  ⟨_, series_setSampleSize_of_ne _ 10 (by decide), rfl, by simp [new_values], rfl⟩

/-! ### The auto-range scale factor -/

theorem qFuzzyCompare_zero (x : ℚ) : qFuzzyCompare x 0 = true ↔ x = 0 := by
  unfold qFuzzyCompare
  rw [decide_eq_true_iff, sub_zero, abs_zero, min_eq_right (abs_nonneg x)]
  constructor
  · intro h
    have h1 : 0 ≤ |x| := abs_nonneg x
    have h2 : |x| ≤ 0 := by nlinarith
    exact abs_eq_zero.mp (le_antisymm h2 h1)
  · intro h
    rw [h]
    simp

theorem adjustFactor_of_ne (height adjustedMax adjustedMin : ℚ)
    (h : adjustedMax - adjustedMin ≠ 0) :
    adjustFactor height adjustedMax adjustedMin =
      some (height / (adjustedMax - adjustedMin)) := by
  unfold adjustFactor checkedDiv
  have hq : ¬ qFuzzyCompare (adjustedMax - adjustedMin) 0 = true :=
    fun hq => h ((qFuzzyCompare_zero _).mp hq)
  rw [if_neg hq, if_neg h]

theorem adjustFactor_of_eq (height adjustedMax adjustedMin : ℚ)
    (h : adjustedMax - adjustedMin = 0) :
    adjustFactor height adjustedMax adjustedMin = some 1 := by
  unfold adjustFactor
  rw [if_pos ((qFuzzyCompare_zero _).mpr h)]

/-! ### What the first pass leaves in every series -/

theorem stackSeries_same (prev : Option PlotData) (d : PlotData) (e : Extents) :
    sameSamples d (stackSeries prev d e).1 := by
  cases prev <;> exact ⟨rfl, rfl, rfl, rfl⟩

theorem stackSeries_lengths (prev : Option PlotData) (d : PlotData) (e : Extents) :
    (stackSeries prev d e).1.m_normalizedValues.length = d.m_values.length := by
  cases prev with
  | none => rfl
  | some prev => exact stackSeries_normalized_length prev d e

theorem plainSeries_same (d : PlotData) (e : Extents) : sameSamples d (plainSeries d e).1 :=
  ⟨rfl, rfl, rfl, rfl⟩

theorem stackedPass_same (ds : List PlotData) (e : Extents) :
    List.Forall₂ sameSamples ds (stackedPass ds e).1 := by
  induction ds with
  | nil => exact List.Forall₂.nil
  | cons d rest ih => exact List.Forall₂.cons (stackSeries_same _ d _) ih

theorem plainPass_same (ds : List PlotData) (e : Extents) :
    List.Forall₂ sameSamples ds (plainPass ds e).1 := by
  induction ds generalizing e with
  | nil => exact List.Forall₂.nil
  | cons d rest ih => exact List.Forall₂.cons (plainSeries_same d e) (ih _)

theorem stackedPass_lengths (ds : List PlotData) (e : Extents) :
    ∀ d1 ∈ (stackedPass ds e).1, d1.m_normalizedValues.length = d1.m_values.length := by
  induction ds with
  | nil => simp [stackedPass]
  | cons d rest ih =>
    intro d1 h1
    simp only [stackedPass, List.mem_cons] at h1
    rcases h1 with h1 | h1
    · rw [h1, stackSeries_lengths, (stackSeries_same _ d _).1]
    · exact ih d1 h1

theorem plainPass_lengths (ds : List PlotData) (e : Extents) :
    ∀ d1 ∈ (plainPass ds e).1, d1.m_normalizedValues.length = d1.m_values.length := by
  induction ds generalizing e with
  | nil => simp [plainPass]
  | cons d rest ih =>
    intro d1 h1
    simp only [plainPass, List.mem_cons] at h1
    rcases h1 with h1 | h1
    · rw [h1]
      rfl
    · exact ih _ d1 h1

theorem firstPass_some (p : Plotter) (hne : p.m_plotData ≠ [] ∨ p.m_stacked = false) :
    ∃ r, firstPass p = some r := by
  unfold firstPass
  cases hst : p.m_stacked with
  | false => exact ⟨_, rfl⟩
  | true =>
    rcases hne with hne | hne
    · obtain ⟨d, rest, hds⟩ := List.exists_cons_of_ne_nil hne
      rw [hds]
      exact ⟨_, rfl⟩
    · rw [hst] at hne
      exact absurd hne (by decide)

theorem firstPass_same (p : Plotter) (r : List PlotData × Extents) (h : firstPass p = some r) :
    List.Forall₂ sameSamples p.m_plotData r.1 := by
  unfold firstPass at h
  split at h
  · split at h
    · exact absurd h (by simp)
    · rename_i d rest hds
      rw [Option.some.injEq] at h
      rw [hds, ← h]
      exact stackedPass_same _ _
  · rw [Option.some.injEq] at h
    rw [← h]
    exact plainPass_same _ _

theorem firstPass_lengths (p : Plotter) (r : List PlotData × Extents)
    (h : firstPass p = some r) :
    ∀ d1 ∈ r.1, d1.m_normalizedValues.length = d1.m_values.length := by
  unfold firstPass at h
  split at h
  · split at h
    · exact absurd h (by simp)
    · rw [Option.some.injEq] at h
      rw [← h]
      exact stackedPass_lengths _ _
  · rw [Option.some.injEq] at h
    rw [← h]
    exact plainPass_lengths _ _

theorem rescaleSeries_normalized (adjustedMin adjust : ℚ) (d : PlotData)
    (hd : d.m_normalizedValues.length = d.m_values.length) :
    (rescaleSeries adjustedMin adjust d).m_normalizedValues =
      d.m_normalizedValues.map fun x => (x - adjustedMin) * adjust :=
  rescale_eq_map adjustedMin adjust d.m_values.length d.m_normalizedValues hd

theorem rescaleSeries_same (adjustedMin adjust : ℚ) (d : PlotData) :
    sameSamples d (rescaleSeries adjustedMin adjust d) :=
  ⟨rfl, rfl, rfl, rfl⟩

theorem secondPass_autoRange (p : Plotter) (r : List PlotData × Extents) (adjust : ℚ)
    (ha : p.m_autoRange = true)
    (hadj : adjustFactor p.height (paddedMax p r.2) (paddedMin p r.2) = some adjust) :
    secondPass p r = some
      { p with
        m_plotData := r.1.map (rescaleSeries (paddedMin p r.2) adjust)
        m_max := r.2.m_max
        m_min := r.2.m_min } := by
  unfold secondPass
  rw [if_pos ha, hadj]
  rfl

/-- The second part of `normalizeData` always returns. -/
theorem secondPass_some (p : Plotter) (r : List PlotData × Extents) :
    ∃ q, secondPass p r = some q := by
  cases ha : p.m_autoRange with
  | false =>
    unfold secondPass
    rw [ha]
    exact ⟨_, rfl⟩
  | true =>
    by_cases h : paddedMax p r.2 - paddedMin p r.2 = 0
    · exact ⟨_, secondPass_autoRange p r 1 ha (adjustFactor_of_eq _ _ _ h)⟩
    · exact ⟨_, secondPass_autoRange p r _ ha (adjustFactor_of_ne _ _ _ h)⟩

/-- C10: with auto-range on, the scale factor is obtained without a division by
zero whatever extremes the first pass computed: it is the quotient
`height / (adjustedMax - adjustedMin)` only when the padded range is non-zero and
is `1` when the padded range is zero. Whenever the first pass completes (the
collection is non-empty, or stacking is off), `normalizeData` returns, and when
the padded range is zero every normalized value is its value before scaling
minus the padded `adjustedMin`. -/
theorem autoRange_division_guarded (p : Plotter) (ha : p.m_autoRange = true) :
    (∀ e : Extents, ∃ adjust,
      adjustFactor p.height (paddedMax p e) (paddedMin p e) = some adjust ∧
      (paddedMax p e - paddedMin p e ≠ 0 →
        adjust = p.height / (paddedMax p e - paddedMin p e)) ∧
      (paddedMax p e - paddedMin p e = 0 → adjust = 1)) ∧
    ((p.m_plotData ≠ [] ∨ p.m_stacked = false) →
      ∃ r q, firstPass p = some r ∧ p.normalizeData = some q ∧
        (paddedMax p r.2 - paddedMin p r.2 = 0 →
          q.m_plotData.map PlotData.m_normalizedValues =
            r.1.map fun d => d.m_normalizedValues.map fun x => x - paddedMin p r.2)) := by
  have hfactor : ∀ e : Extents, ∃ adjust,
      adjustFactor p.height (paddedMax p e) (paddedMin p e) = some adjust ∧
      (paddedMax p e - paddedMin p e ≠ 0 →
        adjust = p.height / (paddedMax p e - paddedMin p e)) ∧
      (paddedMax p e - paddedMin p e = 0 → adjust = 1) := by
    intro e
    by_cases h : paddedMax p e - paddedMin p e = 0
    · exact ⟨1, adjustFactor_of_eq _ _ _ h, fun hn => absurd h hn, fun _ => rfl⟩
    · exact ⟨_, adjustFactor_of_ne _ _ _ h, fun _ => rfl, fun h0 => absurd h0 h⟩
  refine ⟨hfactor, fun hne => ?_⟩
  obtain ⟨r, hr⟩ := firstPass_some p hne
  obtain ⟨adjust, hadj, _, hone⟩ := hfactor r.2
  have hmap : (r.1.map (rescaleSeries (paddedMin p r.2) adjust)).map
      PlotData.m_normalizedValues =
        r.1.map fun d => d.m_normalizedValues.map fun x => (x - paddedMin p r.2) * adjust := by
    rw [List.map_map]
    apply List.map_congr_left
    intro d hd
    exact rescaleSeries_normalized _ _ d (firstPass_lengths p r hr d hd)
  have hnorm : p.normalizeData = some
      { p with
        m_plotData := r.1.map (rescaleSeries (paddedMin p r.2) adjust)
        m_max := r.2.m_max
        m_min := r.2.m_min } := by
    unfold Plotter.normalizeData
    rw [hr]
    exact secondPass_autoRange p r adjust ha hadj
  refine ⟨r, _, hr, hnorm, fun h0 => ?_⟩
  have h1 := hone h0
  subst h1
  simpa using hmap

/-- C10 at flat data: one series holding the single value `5` in a plotter of
height zero; the padded range is zero and the normalized value is `0`. -/
theorem autoRange_division_guarded_witness :
    ∃ q, flatExample.normalizeData = some q ∧
      q.m_plotData.map PlotData.m_normalizedValues = [[0]] := by
  obtain ⟨r, q, hr, hq, hzero⟩ :=
    (autoRange_division_guarded flatExample rfl).2 (Or.inl (by simp [flatExample]))
  have h1 : DBL_MIN < 5 := lt_trans DBL_MIN_lt_one (by norm_num)
  have h2 : (5 : ℚ) < DBL_MAX := by
    have := one_lt_DBL_MAX
    unfold DBL_MAX at this ⊢
    nlinarith [show (1 : ℚ) ≤ 2 ^ 971 from one_le_pow₀ (by norm_num)]
  have hr2 : firstPass flatExample = some ([⟨[5], [5], 5, 5, 1⟩], ⟨5, 5, 5, 5⟩) := by
    simp [firstPass, flatExample, stackedPass, stackSeries, globalExtremes, initialExtents,
      PlotData.max, PlotData.min, PlotData.values, h1, h2]
  rw [hr2, Option.some.injEq] at hr
  subst hr
  refine ⟨q, hq, ?_⟩
  have hrange : paddedMax flatExample (⟨5, 5, 5, 5⟩ : Extents) -
      paddedMin flatExample (⟨5, 5, 5, 5⟩ : Extents) = 0 := by
    norm_num [paddedMax, paddedMin, flatExample]
  rw [hzero hrange]
  norm_num [paddedMin, flatExample]

/-! ### Ingestion through the plotter -/

theorem forall₂_getElem? {R : PlotData → PlotData → Prop} {l₁ l₂ : List PlotData}
    (h : List.Forall₂ R l₁ l₂) (k : Nat) (a : PlotData) (ha : l₁[k]? = some a) :
    ∃ b, l₂[k]? = some b ∧ R a b := by
  induction h generalizing k with
  | nil => simp at ha
  | cons hab _ ih =>
    cases k with
    | zero =>
      simp only [List.getElem?_cons_zero, Option.some.injEq] at ha
      subst ha
      exact ⟨_, List.getElem?_cons_zero, hab⟩
    | succ k =>
      obtain ⟨b, hb, hr⟩ := ih k (by simpa using ha)
      exact ⟨b, by simpa using hb, hr⟩

theorem sameSamples_trans {a b c : PlotData} (hab : sameSamples a b) (hbc : sameSamples b c) :
    sameSamples a c :=
  ⟨hbc.1.trans hab.1, hbc.2.1.trans hab.2.1, hbc.2.2.1.trans hab.2.2.1,
    hbc.2.2.2.trans hab.2.2.2⟩

theorem forall₂_sameSamples_trans {l₁ l₂ l₃ : List PlotData}
    (h₁ : List.Forall₂ sameSamples l₁ l₂) (h₂ : List.Forall₂ sameSamples l₂ l₃) :
    List.Forall₂ sameSamples l₁ l₃ := by
  induction h₁ generalizing l₃ with
  | nil =>
    cases h₂
    exact List.Forall₂.nil
  | cons hab _ ih =>
    cases h₂ with
    | cons hbc hrest => exact List.Forall₂.cons (sameSamples_trans hab hbc) (ih hrest)

theorem secondPass_same (p q : Plotter) (r : List PlotData × Extents)
    (h : secondPass p r = some q) : List.Forall₂ sameSamples r.1 q.m_plotData := by
  unfold secondPass at h
  split at h
  · cases hadj : adjustFactor p.height (paddedMax p r.2) (paddedMin p r.2) with
    | none => simp [hadj] at h
    | some adjust =>
      rw [hadj, Option.map_some', Option.some.injEq] at h
      rw [← h]
      show List.Forall₂ sameSamples r.1 (r.1.map _)
      rw [List.forall₂_map_right_iff, List.forall₂_same]
      exact fun d _ => rescaleSeries_same _ _ d
  · rw [Option.some.injEq] at h
    rw [← h]
    exact List.forall₂_same.mpr fun d _ => ⟨rfl, rfl, rfl, rfl⟩

/-- Normalization changes no sample buffer, window size or recorded extreme. -/
theorem normalizeData_same (p q : Plotter) (h : p.normalizeData = some q) :
    List.Forall₂ sameSamples p.m_plotData q.m_plotData := by
  unfold Plotter.normalizeData at h
  cases hr : firstPass p with
  | none => simp [hr] at h
  | some r =>
    rw [hr, Option.some_bind] at h
    have h1 := firstPass_same p r hr
    have h2 := secondPass_same p q r h
    exact forall₂_sameSamples_trans h1 h2

/-- The buffer `addSample` leaves: the old one, without its first element when it
was at least as long as the window, followed by the new value. -/
theorem addSample_values (d d1 : PlotData) (value : ℚ) (h : d.addSample value = some d1) :
    d1.m_values =
        (if d.m_sampleSize ≤ (d.m_values.length : Int) then d.m_values.tail else d.m_values) ++
          [value] ∧
      d1.m_sampleSize = d.m_sampleSize := by
  unfold PlotData.addSample at h
  by_cases hfull : d.m_sampleSize ≤ (d.m_values.length : Int)
  · rw [if_pos hfull] at h ⊢
    cases hv : d.m_values with
    | nil => simp [hv, removeFirst] at h
    | cons v rest =>
      simp only [hv, removeFirst, Option.map_some', Option.some.injEq] at h
      rw [← h]
      exact ⟨rfl, rfl⟩
  · rw [if_neg hfull] at h ⊢
    simp only [Option.map_some', Option.some.injEq] at h
    rw [← h]
    exact ⟨rfl, rfl⟩

theorem addSample_some (d : PlotData) (value : ℚ)
    (h : d.m_values ≠ [] ∨ (d.m_values.length : Int) < d.m_sampleSize) :
    ∃ d1, d.addSample value = some d1 := by
  by_cases hfull : d.m_sampleSize ≤ (d.m_values.length : Int)
  · rcases h with h | h
    · obtain ⟨v, rest, hv⟩ := List.exists_cons_of_ne_nil h
      exact ⟨_, addSample_full d value v rest hv hfull⟩
    · omega
  · exact ⟨_, addSample_short d value (not_le.mp hfull)⟩

theorem pushSamples_index (value : List ℚ) (i : Nat) (ds ds1 : List PlotData)
    (h : pushSamples value i ds = some ds1) :
    ds1.length = ds.length ∧
      ∀ (k : Nat) (d : PlotData), ds[k]? = some d →
        ∃ d1, ds1[k]? = some d1 ∧ d.addSample (value.getD (i + k) 0) = some d1 := by
  induction ds generalizing i ds1 with
  | nil =>
    simp only [pushSamples, Option.some.injEq] at h
    subst h
    simp
  | cons d rest ih =>
    simp only [pushSamples] at h
    cases hd : d.addSample (value.getD i 0) with
    | none =>
      rw [hd] at h
      exact absurd h (by simp)
    | some d1 =>
      rw [hd, Option.some_bind] at h
      cases hrest : pushSamples value (i + 1) rest with
      | none =>
        rw [hrest] at h
        exact absurd h (by simp)
      | some rest1 =>
        rw [hrest, Option.map_some', Option.some.injEq] at h
        subst h
        obtain ⟨hlen, hidx⟩ := ih (i + 1) rest1 hrest
        refine ⟨by simp [hlen], ?_⟩
        intro k a ha
        cases k with
        | zero =>
          simp only [List.getElem?_cons_zero, Option.some.injEq] at ha
          subst ha
          exact ⟨d1, List.getElem?_cons_zero, hd⟩
        | succ k =>
          obtain ⟨b, hb, hadd⟩ := hidx k a (by simpa using ha)
          refine ⟨b, by simpa using hb, ?_⟩
          rw [← hadd]
          congr 2
          omega

theorem pushSamples_some (value : List ℚ) (i : Nat) (ds : List PlotData)
    (h : ∀ d ∈ ds, d.m_values ≠ [] ∨ (d.m_values.length : Int) < d.m_sampleSize) :
    ∃ ds1, pushSamples value i ds = some ds1 := by
  induction ds generalizing i with
  | nil => exact ⟨[], rfl⟩
  | cons d rest ih =>
    obtain ⟨d1, hd⟩ := addSample_some d (value.getD i 0) (h d (List.mem_cons_self d rest))
    obtain ⟨rest1, hrest⟩ := ih (i + 1) fun s hs => h s (List.mem_cons_of_mem d hs)
    refine ⟨d1 :: rest1, ?_⟩
    simp only [pushSamples]
    rw [hd, hrest]
    rfl

/-- C8: for a sample vector with one value per data set, `Plotter::addSample`
returns whenever no series is empty at full window and the collection is
non-empty or stacking is off; whenever it returns, the collection keeps its
length and the `k`-th series holds its old buffer, without the first element
when that buffer was at least as long as the window, followed by the `k`-th
value of the vector as its last element. -/
theorem addSample_distributes (p : Plotter) (value : List ℚ)
    (hlen : value.length = p.m_plotData.length) :
    ((p.m_plotData ≠ [] ∨ p.m_stacked = false) →
      (∀ d ∈ p.m_plotData, d.m_values ≠ [] ∨ (d.m_values.length : Int) < d.m_sampleSize) →
      ∃ q, p.addSample value = some q) ∧
    ∀ q, p.addSample value = some q →
      q.m_plotData.length = p.m_plotData.length ∧
      ∀ (k : Nat) (d : PlotData) (v : ℚ), p.m_plotData[k]? = some d → value[k]? = some v →
        ∃ d1, q.m_plotData[k]? = some d1 ∧
          d1.m_values =
            (if d.m_sampleSize ≤ (d.m_values.length : Int) then d.m_values.tail
              else d.m_values) ++ [v] := by
  have hadd : p.addSample value = (pushSamples value 0 p.m_plotData).bind fun ds =>
      Plotter.normalizeData { p with m_plotData := ds } := by
    unfold Plotter.addSample
    rw [if_neg (not_not.mpr hlen)]
  constructor
  · intro hne hok
    obtain ⟨ds1, hds1⟩ := pushSamples_some value 0 p.m_plotData hok
    have hl := (pushSamples_index value 0 _ _ hds1).1
    have hne1 : ds1 ≠ [] ∨ p.m_stacked = false := by
      rcases hne with hne | hne
      · left
        intro h0
        rw [h0] at hl
        exact hne (List.length_eq_zero.mp hl.symm)
      · exact Or.inr hne
    obtain ⟨r, hr⟩ := firstPass_some { p with m_plotData := ds1 } hne1
    obtain ⟨q, hq⟩ := secondPass_some { p with m_plotData := ds1 } r
    refine ⟨q, ?_⟩
    rw [hadd, hds1, Option.some_bind]
    unfold Plotter.normalizeData
    rw [hr, Option.some_bind, hq]
  · intro q hq
    rw [hadd] at hq
    cases hds1 : pushSamples value 0 p.m_plotData with
    | none => simp [hds1] at hq
    | some ds1 =>
      rw [hds1, Option.some_bind] at hq
      obtain ⟨hl, hidx⟩ := pushSamples_index value 0 _ _ hds1
      have hsame := normalizeData_same _ q hq
      refine ⟨hsame.length_eq.symm.trans hl, ?_⟩
      intro k d v hd hv
      obtain ⟨d1, hd1, hadd1⟩ := hidx k d hd
      obtain ⟨d2, hd2, hs⟩ := forall₂_getElem? hsame k d1 hd1
      refine ⟨d2, hd2, ?_⟩
      rw [hs.1]
      have hv0 : value.getD (0 + k) 0 = v := by
        rw [Nat.zero_add, List.getD_eq_getElem?_getD, hv]
        rfl
      rw [hv0] at hadd1
      exact (addSample_values d d1 v hadd1).1

/-- C8 at two series of window `2` with the buffers `[1, 2]` and `[3, 4]` and the
vector `[7, 8]`: the buffers become `[2, 7]` and `[4, 8]`. -/
theorem addSample_distributes_witness :
    ∃ q, pushExample.addSample [7, 8] = some q ∧
      q.m_plotData.map PlotData.m_values = [[2, 7], [4, 8]] := by
  have hthm := addSample_distributes pushExample [7, 8] rfl
  obtain ⟨q, hq⟩ := hthm.1 (Or.inl (by simp [pushExample])) (by simp [pushExample])
  obtain ⟨hl, hidx⟩ := hthm.2 q hq
  obtain ⟨a, b, hab⟩ := List.length_eq_two.mp hl
  obtain ⟨a1, ha1, hav⟩ := hidx 0 ⟨[1, 2], [], 1, 2, 2⟩ 7 rfl rfl
  obtain ⟨b1, hb1, hbv⟩ := hidx 1 ⟨[3, 4], [], 3, 4, 2⟩ 8 rfl rfl
  rw [hab] at ha1 hb1
  simp only [List.getElem?_cons_zero, List.getElem?_cons_succ, Option.some.injEq] at ha1 hb1
  subst ha1 hb1
  refine ⟨q, hq, ?_⟩
  rw [hab]
  simp [hav, hbv]

theorem addSample_keeps_window (d d1 : PlotData) (value : ℚ)
    (hinv : d.m_values.length = 40 ∧ d.m_sampleSize = 40)
    (h : d.addSample value = some d1) :
    d1.m_values.length = 40 ∧ d1.m_sampleSize = 40 := by
  obtain ⟨hv, hs⟩ := addSample_values d d1 value h
  have hfull : d.m_sampleSize ≤ (d.m_values.length : Int) := by
    rw [hinv.1, hinv.2]
    rfl
  rw [if_pos hfull] at hv
  rw [hv, hs]
  refine ⟨?_, hinv.2⟩
  rw [List.length_append, List.length_tail, hinv.1]
  rfl

theorem pushSamples_forall₂ (value : List ℚ) (i : Nat) (ds ds1 : List PlotData)
    (h : pushSamples value i ds = some ds1) :
    List.Forall₂ (fun d d1 => ∃ v, d.addSample v = some d1) ds ds1 := by
  induction ds generalizing i ds1 with
  | nil =>
    simp only [pushSamples, Option.some.injEq] at h
    subst h
    exact List.Forall₂.nil
  | cons d rest ih =>
    simp only [pushSamples] at h
    cases hd : d.addSample (value.getD i 0) with
    | none =>
      rw [hd] at h
      exact absurd h (by simp)
    | some d1 =>
      rw [hd, Option.some_bind] at h
      cases hrest : pushSamples value (i + 1) rest with
      | none =>
        rw [hrest] at h
        exact absurd h (by simp)
      | some rest1 =>
        rw [hrest, Option.map_some', Option.some.injEq] at h
        subst h
        exact List.Forall₂.cons ⟨_, hd⟩ (ih (i + 1) rest1 hrest)

theorem forall₂_mem_right {R : PlotData → PlotData → Prop} {l₁ l₂ : List PlotData}
    (h : List.Forall₂ R l₁ l₂) (b : PlotData) (hb : b ∈ l₂) : ∃ a ∈ l₁, R a b := by
  induction h with
  | nil => simp at hb
  | cons hab _ ih =>
    rcases List.mem_cons.mp hb with hb | hb
    · subst hb
      exact ⟨_, List.mem_cons_self _ _, hab⟩
    · obtain ⟨a, ha, hr⟩ := ih hb
      exact ⟨a, List.mem_cons_of_mem _ ha, hr⟩

/-- Every series of the plotter after a successful `Plotter::addSample` is a
series of the plotter before it after one `PlotData::addSample`, up to its
normalized buffer. -/
theorem plotter_addSample_series (p q : Plotter) (value : List ℚ)
    (hlen : value.length = p.m_plotData.length) (h : p.addSample value = some q)
    (d2 : PlotData) (hmem : d2 ∈ q.m_plotData) :
    ∃ d ∈ p.m_plotData, ∃ v d1, d.addSample v = some d1 ∧ sameSamples d1 d2 := by
  unfold Plotter.addSample at h
  rw [if_neg (not_not.mpr hlen)] at h
  cases hds1 : pushSamples value 0 p.m_plotData with
  | none =>
    rw [hds1] at h
    exact absurd h (by simp)
  | some ds1 =>
    rw [hds1, Option.some_bind] at h
    obtain ⟨d1, hd1, hs⟩ := forall₂_mem_right (normalizeData_same _ q h) d2 hmem
    obtain ⟨d, hd, v, hadd⟩ := forall₂_mem_right (pushSamples_forall₂ value 0 _ _ hds1) d1 hd1
    exact ⟨d, hd, v, d1, hadd, hs⟩

theorem reachable_window (d : PlotData) (h : SeriesReachable d) :
    d.m_values.length = 40 ∧ d.m_sampleSize = 40 := by
  induction h with
  | new => exact ⟨by simp [new_values], rfl⟩
  | addSample d d1 value _ hadd ih => exact addSample_keeps_window d d1 value ih hadd
  | plotterAddSample p q value d2 _ hlen hadd hmem ih =>
    obtain ⟨d, hd, v, d1, hadd1, hs⟩ := plotter_addSample_series p q value hlen hadd d2 hmem
    have h1 := addSample_keeps_window d d1 v (ih d hd) hadd1
    rw [hs.1, hs.2.1]
    exact h1

/-- C7: a series reached from a newly constructed one by `addSample` calls,
made directly or by `Plotter::addSample` with vectors of the right length, never
holds more samples than its window size; and in such a state every further
`addSample` returns. -/
theorem reachable_count_le_window (d : PlotData) (h : SeriesReachable d) :
    (d.m_values.length : Int) ≤ d.m_sampleSize ∧ ∀ value, ∃ d1, d.addSample value = some d1 := by
  obtain ⟨hv, hs⟩ := reachable_window d h
  refine ⟨by rw [hv, hs]; rfl, fun value => addSample_some d value (Or.inl ?_)⟩
  intro h0
  rw [h0] at hv
  exact absurd hv (by decide)

/-- C7 at the series obtained from a new one by the calls `addSample(3)` and
`addSample(-1)`. -/
theorem reachable_count_le_window_witness :
    ∃ d, (PlotData.new.addSample 3).bind (fun d0 => d0.addSample (-1)) = some d ∧
      (d.m_values.length : Int) ≤ d.m_sampleSize := by
  obtain ⟨d0, h0⟩ := (reachable_count_le_window PlotData.new SeriesReachable.new).2 3
  have hr0 : SeriesReachable d0 := SeriesReachable.addSample _ _ 3 SeriesReachable.new h0
  obtain ⟨d, hd⟩ := (reachable_count_le_window d0 hr0).2 (-1)
  have hr : SeriesReachable d := SeriesReachable.addSample _ _ (-1) hr0 hd
  exact ⟨d, by rw [h0, Option.some_bind, hd], (reachable_count_le_window d hr).1⟩

/-! ### Auto-range before the first sample -/

theorem thousand_lt_DBL_MAX : 1000 < DBL_MAX := by
  unfold DBL_MAX
  have h : (1 : ℚ) ≤ 2 ^ 971 := one_le_pow₀ (by norm_num)
  have h2 : (1000 : ℚ) < 2 ^ 53 - 1 := by norm_num
  nlinarith

theorem stackedPass_single_sentinel (d : PlotData) (hmax : d.m_max = DBL_MIN)
    (hmin : d.m_min = DBL_MAX) :
    stackedPass [d] initialExtents =
      ([{ d with m_normalizedValues := d.m_values }], initialExtents) := by
  simp [stackedPass, stackSeries, globalExtremes, initialExtents, PlotData.max, PlotData.min,
    PlotData.values, hmax, hmin]

theorem freshRescaled_gt : 19 < freshRescaled := by
  have hM := thousand_lt_DBL_MAX
  have hm0 := DBL_MIN_pos
  have hm1 := DBL_MIN_lt_one
  have hden : 0 < DBL_MAX - 2 - DBL_MIN := by linarith
  have h1 : (DBL_MIN + 20 / 20) - (DBL_MAX - 20 / 20) = -(DBL_MAX - 2 - DBL_MIN) := by ring
  have h2 : (0 : ℚ) - (DBL_MAX - 20 / 20) = -(DBL_MAX - 1) := by ring
  unfold freshRescaled
  rw [h1, h2, div_neg, neg_mul_neg, ← mul_div_assoc, lt_div_iff₀ hden]
  nlinarith

theorem fresh_firstPass :
    firstPass (freshExample.withHeight 20) =
      some ([{ PlotData.new with m_normalizedValues := PlotData.new.m_values }],
        initialExtents) := by
  show some (stackedPass [PlotData.new] initialExtents) = _
  rw [stackedPass_single_sentinel PlotData.new rfl rfl]

theorem fresh_adjust :
    adjustFactor (freshExample.withHeight 20).height
        (paddedMax (freshExample.withHeight 20) initialExtents)
        (paddedMin (freshExample.withHeight 20) initialExtents) =
      some (20 / ((DBL_MIN + 20 / 20) - (DBL_MAX - 20 / 20))) := by
  have hM := thousand_lt_DBL_MAX
  have hm1 := DBL_MIN_lt_one
  have hrange : (DBL_MIN + 20 / 20) - (DBL_MAX - 20 / 20) ≠ 0 := by
    intro h0
    linarith
  exact adjustFactor_of_ne 20 _ _ hrange

/-- C9, evaluated on a new plotter holding one new series when the item gets
height `20`: before scaling every normalized value is `0`, so `lo = hi = 0` and
the specification gives `10`; the code rescales with the sentinels `DBL_MAX` and
`DBL_MIN` as extremes and leaves `freshRescaled`, a value above `19`, in every
slot. -/
theorem autoRange_fresh_series :
    (firstPass (freshExample.withHeight 20)).map
        (fun r => r.1.map PlotData.m_normalizedValues) = some [List.replicate 40 0] ∧
      (freshExample.geometryChanged 20).map
        (fun q => q.m_plotData.map PlotData.m_normalizedValues) =
          some [List.replicate 40 freshRescaled] ∧
      19 < freshRescaled ∧ specRescaled 0 0 20 0 = 10 ∧
      freshRescaled ≠ specRescaled 0 0 20 0 := by
  have hspec : specRescaled 0 0 20 0 = 10 := by
    norm_num [specRescaled]
  refine ⟨?_, ?_, freshRescaled_gt, hspec, ?_⟩
  · rw [fresh_firstPass]
    rfl
  · unfold Plotter.geometryChanged Plotter.normalizeData
    rw [fresh_firstPass, Option.some_bind,
      secondPass_autoRange (freshExample.withHeight 20)
        ([{ PlotData.new with m_normalizedValues := PlotData.new.m_values }], initialExtents)
        _ rfl fresh_adjust, Option.map_some']
    simp only [List.map_cons, List.map_nil]
    rw [rescaleSeries_normalized _ _ _ rfl]
    simp only [new_values, List.map_replicate, paddedMin, initialExtents, Plotter.withHeight,
      freshRescaled]
  · rw [hspec]
    exact (lt_trans (by norm_num) freshRescaled_gt).ne.symm

/-! ### The global extremes after the stacked pass -/

theorem stackSeries_m_max (prev : Option PlotData) (d : PlotData) (e : Extents) :
    (stackSeries prev d e).2.m_max = Max.max d.m_max e.m_max := by
  have h : (stackSeries prev d e).2.m_max = if d.m_max > e.m_max then d.m_max else e.m_max := by
    cases prev <;> rfl
  rw [h, max_def]
  by_cases hlt : e.m_max < d.m_max
  · rw [if_pos hlt, if_neg (not_le.mpr hlt)]
  · rw [if_neg hlt, if_pos (not_lt.mp hlt)]

theorem stackSeries_m_min (prev : Option PlotData) (d : PlotData) (e : Extents) :
    (stackSeries prev d e).2.m_min = Min.min d.m_min e.m_min := by
  have h : (stackSeries prev d e).2.m_min = if d.m_min < e.m_min then d.m_min else e.m_min := by
    cases prev <;> rfl
  rw [h, min_def]
  by_cases hlt : d.m_min < e.m_min
  · rw [if_pos hlt, if_pos hlt.le]
  · rw [if_neg hlt]
    by_cases hle : d.m_min ≤ e.m_min
    · rw [if_pos hle]
      exact le_antisymm (not_lt.mp hlt) hle
    · rw [if_neg hle]

theorem stackedPass_m_max (ds : List PlotData) (e : Extents) :
    (stackedPass ds e).2.m_max = ds.foldr (fun d m => Max.max d.m_max m) e.m_max := by
  induction ds with
  | nil => rfl
  | cons d rest ih =>
    simp only [stackedPass, List.foldr_cons]
    rw [stackSeries_m_max, ih]

theorem stackedPass_m_min (ds : List PlotData) (e : Extents) :
    (stackedPass ds e).2.m_min = ds.foldr (fun d m => Min.min d.m_min m) e.m_min := by
  induction ds with
  | nil => rfl
  | cons d rest ih =>
    simp only [stackedPass, List.foldr_cons]
    rw [stackSeries_m_min, ih]

theorem foldr_max_bounds (ds : List PlotData) (m0 : ℚ) :
    (∀ d ∈ ds, d.m_max ≤ ds.foldr (fun d m => Max.max d.m_max m) m0) ∧
      m0 ≤ ds.foldr (fun d m => Max.max d.m_max m) m0 ∧
      (ds.foldr (fun d m => Max.max d.m_max m) m0 = m0 ∨
        ∃ d ∈ ds, ds.foldr (fun d m => Max.max d.m_max m) m0 = d.m_max) := by
  induction ds with
  | nil => simp
  | cons d rest ih =>
    obtain ⟨h1, h2, h3⟩ := ih
    simp only [List.foldr_cons, List.mem_cons]
    refine ⟨?_, le_trans h2 (le_max_right _ _), ?_⟩
    · intro s hs
      rcases hs with hs | hs
      · rw [hs]
        exact le_max_left _ _
      · exact le_trans (h1 s hs) (le_max_right _ _)
    · rcases max_choice d.m_max (rest.foldr (fun d m => Max.max d.m_max m) m0) with hc | hc
      · exact Or.inr ⟨d, Or.inl rfl, hc⟩
      · rw [hc]
        rcases h3 with h3 | ⟨s, hs, h3⟩
        · exact Or.inl h3
        · exact Or.inr ⟨s, Or.inr hs, h3⟩

theorem foldr_min_bounds (ds : List PlotData) (m0 : ℚ) :
    (∀ d ∈ ds, ds.foldr (fun d m => Min.min d.m_min m) m0 ≤ d.m_min) ∧
      ds.foldr (fun d m => Min.min d.m_min m) m0 ≤ m0 ∧
      (ds.foldr (fun d m => Min.min d.m_min m) m0 = m0 ∨
        ∃ d ∈ ds, ds.foldr (fun d m => Min.min d.m_min m) m0 = d.m_min) := by
  induction ds with
  | nil => simp
  | cons d rest ih =>
    obtain ⟨h1, h2, h3⟩ := ih
    simp only [List.foldr_cons, List.mem_cons]
    refine ⟨?_, le_trans (min_le_right _ _) h2, ?_⟩
    · intro s hs
      rcases hs with hs | hs
      · rw [hs]
        exact min_le_left _ _
      · exact le_trans (min_le_right _ _) (h1 s hs)
    · rcases min_choice d.m_min (rest.foldr (fun d m => Min.min d.m_min m) m0) with hc | hc
      · exact Or.inr ⟨d, Or.inl rfl, hc⟩
      · rw [hc]
        rcases h3 with h3 | ⟨s, hs, h3⟩
        · exact Or.inl h3
        · exact Or.inr ⟨s, Or.inr hs, h3⟩

/-- The members `m_max` and `m_min` after `normalizeData` are the ones the first
pass computed. -/
theorem normalizeData_members (p q : Plotter) (r : List PlotData × Extents)
    (hr : firstPass p = some r) (hq : p.normalizeData = some q) :
    q.m_max = r.2.m_max ∧ q.m_min = r.2.m_min ∧ q.m_sampleSize = p.m_sampleSize ∧
      q.m_stacked = p.m_stacked ∧ q.m_autoRange = p.m_autoRange ∧ q.height = p.height := by
  unfold Plotter.normalizeData at hq
  rw [hr, Option.some_bind] at hq
  unfold secondPass at hq
  split at hq
  · cases hadj : adjustFactor p.height (paddedMax p r.2) (paddedMin p r.2) with
    | none =>
      rw [hadj] at hq
      exact absurd hq (by simp)
    | some adjust =>
      rw [hadj, Option.map_some', Option.some.injEq] at hq
      rw [← hq]
      exact ⟨rfl, rfl, rfl, rfl, rfl, rfl⟩
  · rw [Option.some.injEq] at hq
    rw [← hq]
    exact ⟨rfl, rfl, rfl, rfl, rfl, rfl⟩

theorem firstPass_stacked (p : Plotter) (hs : p.m_stacked = true) (hne : p.m_plotData ≠ []) :
    firstPass p = some (stackedPass p.m_plotData initialExtents) := by
  obtain ⟨d, rest, hds⟩ := List.exists_cons_of_ne_nil hne
  unfold firstPass
  rw [if_pos hs, hds]

theorem normalizeData_some (p : Plotter) (hne : p.m_plotData ≠ [] ∨ p.m_stacked = false) :
    ∃ q, p.normalizeData = some q := by
  obtain ⟨r, hr⟩ := firstPass_some p hne
  obtain ⟨q, hq⟩ := secondPass_some p r
  exact ⟨q, by unfold Plotter.normalizeData; rw [hr, Option.some_bind, hq]⟩

/-- C11 is false at the series `[1]`, `[2]`, `[3]` with stacking on: the stacked
values contain `6`, while `max()` is `3` and `min()` is `1`, the extremes of the
series' own recorded values; so `max()` and `min()` are not the largest and
smallest stacked value. -/
theorem global_extremes_not_stacked :
    ∃ r q, firstPass stackExample = some r ∧ stackExample.normalizeData = some q ∧
      (6 : ℚ) ∈ stackedValues r.1 ∧ q.max = 3 ∧ q.min = 1 ∧
      ¬ extremesOfStacked r.1 q := by
  have hr := firstPass_stacked stackExample rfl (by simp [stackExample])
  obtain ⟨q, hq⟩ := normalizeData_some stackExample (Or.inl (by simp [stackExample]))
  obtain ⟨hmax, hmin, _⟩ := normalizeData_members stackExample q _ hr hq
  have h1 : DBL_MIN < 1 := DBL_MIN_lt_one
  have h2 : (1000 : ℚ) < DBL_MAX := thousand_lt_DBL_MAX
  have hmax3 : q.max = 3 := by
    show q.m_max = 3
    rw [hmax, stackedPass_m_max]
    simp only [stackExample, List.foldr_cons, List.foldr_nil, initialExtents]
    rw [max_eq_left (by linarith : DBL_MIN ≤ 3), max_eq_right (by norm_num : (2 : ℚ) ≤ 3),
      max_eq_right (by norm_num : (1 : ℚ) ≤ 3)]
  have hmin1 : q.min = 1 := by
    show q.m_min = 1
    rw [hmin, stackedPass_m_min]
    simp only [stackExample, List.foldr_cons, List.foldr_nil, initialExtents]
    rw [min_eq_left (by linarith : (3 : ℚ) ≤ DBL_MAX), min_eq_left (by norm_num : (2 : ℚ) ≤ 3),
      min_eq_left (by norm_num : (1 : ℚ) ≤ 2)]
  have h6 : (6 : ℚ) ∈ stackedValues (stackedPass stackExample.m_plotData initialExtents).1 := by
    cases hh : (stackedPass stackExample.m_plotData initialExtents).1 with
    | nil =>
      have hlen := stackedPass_length stackExample.m_plotData initialExtents
      rw [hh] at hlen
      exact absurd hlen (by simp [stackExample])
    | cons d1 rest =>
      obtain ⟨_, hsum⟩ := stackedPass_head 1 stackExample.m_plotData initialExtents
        (by simp [stackExample]) d1 (by rw [hh]; rfl)
      have h0 := hsum 0 (by norm_num)
      have hval : ((stackExample.m_plotData.map fun s => s.m_values.getD 0 0).sum) = 6 := by
        norm_num [stackExample]
      rw [hval] at h0
      unfold stackedValues
      rw [List.flatMap_cons, List.mem_append]
      exact Or.inl (List.getElem?_mem h0)
  refine ⟨_, q, hr, hq, h6, hmax3, hmin1, ?_⟩
  intro hext
  have := hext.1.2 6 h6
  rw [hmax3] at this
  norm_num at this

/-- C11 as amended: with stacking on, on a non-empty collection in which some
series has a recorded `max()` of at least `DBL_MIN` and some series a recorded
`min()` of at most `DBL_MAX`, `normalizeData` returns and leaves in `max()` the
largest recorded `max()` of the series and in `min()` the smallest recorded
`min()` of the series. -/
theorem normalizeData_global_extremes (p : Plotter) (hs : p.m_stacked = true)
    (hne : p.m_plotData ≠ [])
    (hmax : ∃ d ∈ p.m_plotData, DBL_MIN ≤ d.max)
    (hmin : ∃ d ∈ p.m_plotData, d.min ≤ DBL_MAX) :
    ∃ q, p.normalizeData = some q ∧
      (∃ d ∈ p.m_plotData, q.max = d.max) ∧ (∀ d ∈ p.m_plotData, d.max ≤ q.max) ∧
      (∃ d ∈ p.m_plotData, q.min = d.min) ∧ (∀ d ∈ p.m_plotData, q.min ≤ d.min) := by
  have hr := firstPass_stacked p hs hne
  obtain ⟨q, hq⟩ := normalizeData_some p (Or.inl hne)
  obtain ⟨hqmax, hqmin, _⟩ := normalizeData_members p q _ hr hq
  rw [stackedPass_m_max] at hqmax
  rw [stackedPass_m_min] at hqmin
  obtain ⟨hub, _, hmaxc⟩ := foldr_max_bounds p.m_plotData initialExtents.m_max
  obtain ⟨hlb, _, hminc⟩ := foldr_min_bounds p.m_plotData initialExtents.m_min
  refine ⟨q, hq, ?_, ?_, ?_, ?_⟩
  · show ∃ d ∈ p.m_plotData, q.m_max = d.m_max
    rw [hqmax]
    rcases hmaxc with hc | hc
    · obtain ⟨d, hd, hle⟩ := hmax
      refine ⟨d, hd, le_antisymm ?_ (hub d hd)⟩
      rw [hc]
      exact hle
    · exact hc
  · intro d hd
    show d.m_max ≤ q.m_max
    rw [hqmax]
    exact hub d hd
  · show ∃ d ∈ p.m_plotData, q.m_min = d.m_min
    rw [hqmin]
    rcases hminc with hc | hc
    · obtain ⟨d, hd, hle⟩ := hmin
      refine ⟨d, hd, le_antisymm (hlb d hd) ?_⟩
      rw [hc]
      exact hle
    · exact hc
  · intro d hd
    show q.m_min ≤ d.m_min
    rw [hqmin]
    exact hlb d hd

/-- C11 as amended, at the series `[1]`, `[2]`, `[3]`: `max()` is at least `3`,
the recorded maximum of the last series, and `min()` at most `1`. -/
theorem normalizeData_global_extremes_witness :
    ∃ q, stackExample.normalizeData = some q ∧ 3 ≤ q.max ∧ q.min ≤ 1 := by
  obtain ⟨q, hq, _, hub, _, hlb⟩ := normalizeData_global_extremes stackExample rfl
    (by simp [stackExample])
    ⟨⟨[1], [], 1, 1, 1⟩, by simp [stackExample], DBL_MIN_lt_one.le⟩
    ⟨⟨[1], [], 1, 1, 1⟩, by simp [stackExample], one_lt_DBL_MAX.le⟩
  exact ⟨q, hq, hub ⟨[3], [], 3, 3, 1⟩ (by simp [stackExample]),
    hlb ⟨[1], [], 1, 1, 1⟩ (by simp [stackExample])⟩

/-! ### Window sizes in reachable plotters -/

theorem addSample_length_mismatch_eq (p : Plotter) (value : List ℚ)
    (h : ¬ value.length = p.m_plotData.length) : p.addSample value = some p := by
  unfold Plotter.addSample
  rw [if_pos h]

theorem series_setSampleSize_window (d d1 : PlotData) (size : Int)
    (h : d.setSampleSize size = some d1) : d1.m_sampleSize = d.m_sampleSize := by
  unfold PlotData.setSampleSize at h
  by_cases hne : d.m_sampleSize ≠ size
  · rw [if_pos hne, Option.some.injEq] at h
    rw [h]
  · have heq : d.m_sampleSize = size := not_not.mp hne
    rw [if_neg hne] at h
    split at h
    · cases hs : shrinkLoop size 0 d.m_values with
      | none =>
        rw [hs] at h
        exact absurd h (by simp)
      | some vals =>
        rw [hs, Option.map_some', Option.some.injEq] at h
        rw [← h, heq]
    · split at h
      · rw [Option.some.injEq] at h
        rw [← h, heq]
      · rw [Option.some.injEq] at h
        rw [← h, heq]

theorem seriesBuilt_window (d : PlotData) (h : SeriesBuilt d) : d.m_sampleSize = 40 := by
  induction h with
  | new => rfl
  | addSample d d1 value _ hadd ih => rw [(addSample_values d d1 value hadd).2, ih]
  | setSampleSize d d1 size _ hset ih => rw [series_setSampleSize_window d d1 size hset, ih]

theorem resizeAll_window (size : Int) (ds ds1 : List PlotData)
    (h : resizeAll size ds = some ds1) :
    ∀ d1 ∈ ds1, ∃ d ∈ ds, d1.m_sampleSize = d.m_sampleSize := by
  induction ds generalizing ds1 with
  | nil =>
    simp only [resizeAll, Option.some.injEq] at h
    subst h
    simp
  | cons d rest ih =>
    simp only [resizeAll] at h
    cases hd : d.setSampleSize size with
    | none =>
      rw [hd] at h
      exact absurd h (by simp)
    | some d1 =>
      rw [hd, Option.some_bind] at h
      cases hrest : resizeAll size rest with
      | none =>
        rw [hrest] at h
        exact absurd h (by simp)
      | some rest1 =>
        rw [hrest, Option.map_some', Option.some.injEq] at h
        subst h
        intro s hs
        rcases List.mem_cons.mp hs with hs | hs
        · subst hs
          exact ⟨d, List.mem_cons_self _ _, series_setSampleSize_window d s size hd⟩
        · obtain ⟨t, ht, hw⟩ := ih rest1 hrest s hs
          exact ⟨t, List.mem_cons_of_mem _ ht, hw⟩

theorem plotter_setSampleSize_window (p q : Plotter) (size : Int)
    (h : p.setSampleSize size = some q) :
    q.m_sampleSize = p.m_sampleSize ∧
      ∀ d1 ∈ q.m_plotData, ∃ d ∈ p.m_plotData, d1.m_sampleSize = d.m_sampleSize := by
  unfold Plotter.setSampleSize at h
  by_cases hne : p.m_sampleSize ≠ size
  · rw [if_pos hne, Option.some.injEq] at h
    rw [← h]
    exact ⟨rfl, fun d1 hd1 => ⟨d1, hd1, rfl⟩⟩
  · have heq : p.m_sampleSize = size := not_not.mp hne
    rw [if_neg hne] at h
    cases hds : resizeAll size p.m_plotData with
    | none =>
      rw [hds] at h
      exact absurd h (by simp)
    | some ds1 =>
      rw [hds, Option.map_some', Option.some.injEq] at h
      rw [← h]
      exact ⟨heq.symm, resizeAll_window size _ _ hds⟩

theorem normalizeData_window (p q : Plotter) (h : p.normalizeData = some q) :
    q.m_sampleSize = p.m_sampleSize ∧
      ∀ d1 ∈ q.m_plotData, ∃ d ∈ p.m_plotData, d1.m_sampleSize = d.m_sampleSize := by
  constructor
  · cases hr : firstPass p with
    | none =>
      unfold Plotter.normalizeData at h
      rw [hr] at h
      exact absurd h (by simp)
    | some r => exact (normalizeData_members p q r hr h).2.2.1
  · intro d1 hd1
    obtain ⟨d, hd, hs⟩ := forall₂_mem_right (normalizeData_same p q h) d1 hd1
    exact ⟨d, hd, hs.2.1⟩

theorem plotter_addSample_window (p q : Plotter) (value : List ℚ)
    (h : p.addSample value = some q) :
    q.m_sampleSize = p.m_sampleSize ∧
      ∀ d1 ∈ q.m_plotData, ∃ d ∈ p.m_plotData, d1.m_sampleSize = d.m_sampleSize := by
  by_cases hlen : value.length = p.m_plotData.length
  · constructor
    · unfold Plotter.addSample at h
      rw [if_neg (not_not.mpr hlen)] at h
      cases hds1 : pushSamples value 0 p.m_plotData with
      | none =>
        rw [hds1] at h
        exact absurd h (by simp)
      | some ds1 =>
        rw [hds1, Option.some_bind] at h
        exact (normalizeData_window _ q h).1
    · intro d2 hd2
      obtain ⟨d, hd, v, d1, hadd, hs⟩ := plotter_addSample_series p q value hlen h d2 hd2
      exact ⟨d, hd, by rw [hs.2.1, (addSample_values d d1 v hadd).2]⟩
  · rw [addSample_length_mismatch_eq p value hlen, Option.some.injEq] at h
    rw [← h]
    exact ⟨rfl, fun d1 hd1 => ⟨d1, hd1, rfl⟩⟩

theorem reachable_windows (p : Plotter) (h : PlotterReachable p) :
    p.m_sampleSize = 40 ∧ ∀ d ∈ p.m_plotData, d.m_sampleSize = 40 := by
  induction h with
  | new => exact ⟨rfl, by simp [Plotter.new]⟩
  | append p item _ hitem ih =>
    refine ⟨ih.1, fun d hd => ?_⟩
    simp only [Plotter.dataSet_append, List.mem_append, List.mem_singleton] at hd
    rcases hd with hd | hd
    · exact ih.2 d hd
    · rw [hd]
      exact seriesBuilt_window item hitem
  | clear p _ ih => exact ⟨ih.1, by simp [Plotter.dataSet_clear]⟩
  | addSample p q value _ hadd ih =>
    obtain ⟨h1, h2⟩ := plotter_addSample_window p q value hadd
    refine ⟨h1.trans ih.1, fun d1 hd1 => ?_⟩
    obtain ⟨d, hd, hw⟩ := h2 d1 hd1
    rw [hw]
    exact ih.2 d hd
  | setSampleSize p q size _ hset ih =>
    obtain ⟨h1, h2⟩ := plotter_setSampleSize_window p q size hset
    refine ⟨h1.trans ih.1, fun d1 hd1 => ?_⟩
    obtain ⟨d, hd, hw⟩ := h2 d1 hd1
    rw [hw]
    exact ih.2 d hd
  | geometryChanged p q newHeight _ hgeo ih =>
    obtain ⟨h1, h2⟩ := normalizeData_window (p.withHeight newHeight) q hgeo
    refine ⟨h1.trans ih.1, fun d1 hd1 => ?_⟩
    obtain ⟨d, hd, hw⟩ := h2 d1 hd1
    rw [hw]
    exact ih.2 d hd

/-- C12: in every state reachable from a new plotter by appending series,
clearing the collection, `Plotter::addSample`, `Plotter::setSampleSize` and
geometry changes, every series of the collection has the window size that
`sampleSize()` returns. -/
theorem reachable_series_window (p : Plotter) (h : PlotterReachable p) :
    ∀ d ∈ p.m_plotData, d.m_sampleSize = p.sampleSize := by
  obtain ⟨hp, hds⟩ := reachable_windows p h
  intro d hd
  rw [hds d hd]
  exact hp.symm

/-- C12 at the plotter reached by appending a new series and then requesting the
window size `10`. -/
theorem reachable_series_window_witness :
    ∃ q, freshExample.setSampleSize 10 = some q ∧
      ∀ d ∈ q.m_plotData, d.m_sampleSize = q.sampleSize := by
  have hset : freshExample.setSampleSize 10 = some freshExample :=
    plotter_setSampleSize_of_ne freshExample 10 (by decide)
  have hfresh : PlotterReachable freshExample :=
    PlotterReachable.append Plotter.new PlotData.new PlotterReachable.new SeriesBuilt.new
  exact ⟨freshExample, hset,
    reachable_series_window freshExample
      (PlotterReachable.setSampleSize freshExample freshExample 10 hfresh hset)⟩

/-! ### A plotter with a single series -/

theorem adjustFactor_some (height adjustedMax adjustedMin : ℚ) :
    ∃ adjust, adjustFactor height adjustedMax adjustedMin = some adjust := by
  by_cases h : adjustedMax - adjustedMin = 0
  · exact ⟨1, adjustFactor_of_eq _ _ _ h⟩
  · exact ⟨_, adjustFactor_of_ne _ _ _ h⟩

/-- One `Plotter::addSample` on a plotter with stacking and auto-range on that
holds a single series with a full buffer. -/
theorem single_push (p : Plotter) (d : PlotData) (v0 v : ℚ) (rest : List ℚ)
    (hp : p.m_plotData = [d]) (hv : d.m_values = v0 :: rest)
    (hw : d.m_sampleSize ≤ (d.m_values.length : Int))
    (hs : p.m_stacked = true) (ha : p.m_autoRange = true) :
    ∃ q d1 adjust, p.addSample [v] = some q ∧ q.m_plotData = [d1] ∧
      d1.m_values = rest ++ [v] ∧ d1.m_sampleSize = d.m_sampleSize ∧
      d1.m_max = (rescan (rest ++ [v])).1 ∧ d1.m_min = (rescan (rest ++ [v])).2 ∧
      q.m_stacked = true ∧ q.m_autoRange = true ∧ q.height = p.height ∧
      adjustFactor p.height
        ((if d1.m_max > DBL_MIN then d1.m_max else DBL_MIN) + p.height / 20)
        ((if d1.m_min < DBL_MAX then d1.m_min else DBL_MAX) - p.height / 20) = some adjust ∧
      d1.m_normalizedValues = (rest ++ [v]).map fun x =>
        (x - ((if d1.m_min < DBL_MAX then d1.m_min else DBL_MAX) - p.height / 20)) * adjust := by
  have hadd := addSample_full d v v0 rest hv hw
  have hpush : pushSamples [v] 0 p.m_plotData = some
      [{ d with
        m_values := rest ++ [v]
        m_max := (rescan (rest ++ [v])).1
        m_min := (rescan (rest ++ [v])).2 }] := by
    rw [hp]
    simp only [pushSamples]
    show (d.addSample v).bind _ = _
    rw [hadd]
    rfl
  obtain ⟨adjust, hadj⟩ := adjustFactor_some p.height
    ((if (rescan (rest ++ [v])).1 > DBL_MIN then (rescan (rest ++ [v])).1 else DBL_MIN) +
      p.height / 20)
    ((if (rescan (rest ++ [v])).2 < DBL_MAX then (rescan (rest ++ [v])).2 else DBL_MAX) -
      p.height / 20)
  have hfirst : firstPass { p with m_plotData := [{ d with
        m_values := rest ++ [v]
        m_max := (rescan (rest ++ [v])).1
        m_min := (rescan (rest ++ [v])).2 }] } =
      some (stackedPass [{ d with
        m_values := rest ++ [v]
        m_max := (rescan (rest ++ [v])).1
        m_min := (rescan (rest ++ [v])).2 }] initialExtents) := by
    unfold firstPass
    rw [if_pos hs]
  have hsecond := secondPass_autoRange { p with m_plotData := [{ d with
        m_values := rest ++ [v]
        m_max := (rescan (rest ++ [v])).1
        m_min := (rescan (rest ++ [v])).2 }] }
    (stackedPass [{ d with
        m_values := rest ++ [v]
        m_max := (rescan (rest ++ [v])).1
        m_min := (rescan (rest ++ [v])).2 }] initialExtents) adjust ha hadj
  have hq : p.addSample [v] = secondPass { p with m_plotData := [{ d with
        m_values := rest ++ [v]
        m_max := (rescan (rest ++ [v])).1
        m_min := (rescan (rest ++ [v])).2 }] }
      (stackedPass [{ d with
        m_values := rest ++ [v]
        m_max := (rescan (rest ++ [v])).1
        m_min := (rescan (rest ++ [v])).2 }] initialExtents) := by
    unfold Plotter.addSample
    rw [if_neg (by rw [hp]; simp), hpush, Option.some_bind]
    unfold Plotter.normalizeData
    rw [hfirst, Option.some_bind]
  rw [hsecond] at hq
  refine ⟨_, _, adjust, hq, rfl, rfl, rfl, rfl, rfl, hs, ha, rfl, hadj, ?_⟩
  exact rescaleSeries_normalized _ adjust _ rfl

theorem addSamples_append (p : Plotter) (xs ys : List (List ℚ)) :
    p.addSamples (xs ++ ys) = (p.addSamples xs).bind fun q => q.addSamples ys := by
  induction xs generalizing p with
  | nil => rfl
  | cons x rest ih =>
    simp only [List.cons_append, Plotter.addSamples]
    cases hx : p.addSample x with
    | none => rfl
    | some q => exact ih q

/-- A sequence of one-value pushes on a plotter that holds a single series with
a full window of `40`: the buffer afterwards. -/
theorem single_pushes (vs : List ℚ) (p : Plotter) (d : PlotData)
    (hp : p.m_plotData = [d]) (hlen : d.m_values.length = 40) (hw : d.m_sampleSize = 40)
    (hs : p.m_stacked = true) (ha : p.m_autoRange = true) :
    ∃ q d1, p.addSamples (vs.map fun v => [v]) = some q ∧ q.m_plotData = [d1] ∧
      d1.m_values = (d.m_values ++ vs).drop vs.length ∧ d1.m_sampleSize = 40 ∧
      q.m_stacked = true ∧ q.m_autoRange = true ∧ q.height = p.height := by
  induction vs generalizing p d with
  | nil => exact ⟨p, d, rfl, hp, by simp, hw, hs, ha, rfl⟩
  | cons v vs ih =>
    cases hv : d.m_values with
    | nil =>
      rw [hv] at hlen
      exact absurd hlen (by simp)
    | cons v0 rest =>
      have hfull : d.m_sampleSize ≤ (d.m_values.length : Int) := by
        rw [hw, hlen]
        rfl
      obtain ⟨q1, d1, _, hq1, hp1, hv1, hw1, _, _, hs1, ha1, hh1, _, _⟩ :=
        single_push p d v0 v rest hp hv hfull hs ha
      have hlen1 : d1.m_values.length = 40 := by
        rw [hv1, List.length_append, List.length_singleton]
        rw [hv, List.length_cons] at hlen
        exact hlen
      obtain ⟨q, d2, hq, hp2, hv2, hw2, hs2, ha2, hh2⟩ :=
        ih q1 d1 hp1 hlen1 (hw1.trans hw) hs1 ha1
      refine ⟨q, d2, ?_, hp2, ?_, hw2, hs2, ha2, hh2.trans hh1⟩
      · simp only [List.map_cons, Plotter.addSamples]
        rw [hq1, Option.some_bind]
        exact hq
      · rw [hv2, hv1]
        simp

theorem scan_constant (x : ℚ) (n : Nat) :
    (List.replicate n x).foldl scanStep (x, x) = (x, x) := by
  induction n with
  | zero => rfl
  | succ n ih =>
    rw [List.replicate_succ, List.foldl_cons]
    have hstep : scanStep (x, x) x = (x, x) := by
      simp [scanStep]
    rw [hstep, ih]

theorem rescan_rising : rescan (1 :: List.replicate 39 100) = (100, 100) := by
  have hm := DBL_MIN_lt_one
  have hM := thousand_lt_DBL_MAX
  have h1 : scanStep (DBL_MIN, DBL_MAX) 1 = (1, DBL_MAX) := by
    simp [scanStep, hm]
  have h2 : scanStep (1, DBL_MAX) 100 = (100, DBL_MAX) := by
    simp [scanStep]
  have h3 : scanStep (100, DBL_MAX) 100 = (100, 100) := by
    have : (100 : ℚ) < DBL_MAX := by linarith
    simp [scanStep, this]
  unfold rescan
  rw [show (39 : Nat) = 37 + 1 + 1 from rfl, List.replicate_succ, List.replicate_succ,
    List.foldl_cons, List.foldl_cons, List.foldl_cons, h1, h2, h3, scan_constant]

/-- C13, evaluated on a plotter of height `20` with auto-range on whose single
new series receives, through `Plotter::addSample`, the value `1` and then
thirty-nine times the value `100`: the buffer is `1` followed by thirty-nine
times `100`, the recorded `min()` is `100`, and the normalized value of the first
sample is `-980`, below `0`. -/
theorem autoRange_negative_after_rising :
    ∃ q, (freshExample.withHeight 20).addSamples risingPushes = some q ∧
      q.m_autoRange = true ∧ q.height = 20 ∧
      q.m_plotData.map PlotData.m_values = [1 :: List.replicate 39 100] ∧
      q.m_plotData.map PlotData.min = [100] ∧
      q.m_plotData.map PlotData.m_normalizedValues = [(-980) :: List.replicate 39 10] ∧
      (-980 : ℚ) < 0 := by
  obtain ⟨q39, d39, hq39, hp39, hv39, hw39, hs39, ha39, hh39⟩ :=
    single_pushes (1 :: List.replicate 38 100) (freshExample.withHeight 20) PlotData.new
      rfl (by simp [new_values]) rfl rfl rfl
  have hbuf : d39.m_values = 0 :: 1 :: List.replicate 38 100 := by
    have h40 : List.replicate 40 (0 : ℚ) = List.replicate 39 0 ++ [0] :=
      List.replicate_succ' 39 0
    rw [hv39, new_values, h40, List.append_assoc]
    exact List.drop_left' (by simp)
  have hfull : d39.m_sampleSize ≤ (d39.m_values.length : Int) := by
    rw [hw39, hbuf]
    simp
  obtain ⟨q, d40, adjust, hq, hp40, hv40, _, hmax40, hmin40, _, ha40, hh40, hadj, hnorm⟩ :=
    single_push q39 d39 0 100 (1 :: List.replicate 38 100) hp39 hbuf hfull hs39 ha39
  have hlist : (1 :: List.replicate 38 (100 : ℚ)) ++ [100] = 1 :: List.replicate 39 100 := by
    have h39 : List.replicate 39 (100 : ℚ) = List.replicate 38 100 ++ [100] :=
      List.replicate_succ' 38 100
    rw [List.cons_append, h39]
  rw [hlist] at hv40 hmax40 hmin40 hnorm
  rw [rescan_rising] at hmax40 hmin40
  have hheight : q39.height = 20 := hh39
  have hM := thousand_lt_DBL_MAX
  have hm := DBL_MIN_lt_one
  have hgt : d40.m_max > DBL_MIN := by
    rw [hmax40]
    show DBL_MIN < 100
    linarith
  have hlt : d40.m_min < DBL_MAX := by
    rw [hmin40]
    show (100 : ℚ) < DBL_MAX
    linarith
  rw [if_pos hgt, if_pos hlt, hmax40, hmin40, hheight] at hadj
  rw [if_pos hlt, hmin40, hheight] at hnorm
  have hadjust : adjust = 10 := by
    have hne : ((100 : ℚ) + 20 / 20) - (100 - 20 / 20) ≠ 0 := by norm_num
    rw [adjustFactor_of_ne 20 _ _ hne, Option.some.injEq] at hadj
    rw [← hadj]
    norm_num
  rw [hadjust] at hnorm
  refine ⟨q, ?_, ha40, hh40.trans hheight, ?_, ?_, ?_, by norm_num⟩
  · have hsplit : risingPushes =
        ((1 :: List.replicate 38 (100 : ℚ)).map fun v => [v]) ++ [[100]] := by
      have h39 : List.replicate 39 [(100 : ℚ)] = List.replicate 38 [100] ++ [[100]] :=
        List.replicate_succ' 38 [100]
      unfold risingPushes
      rw [List.map_cons, List.map_replicate, List.cons_append, h39]
    rw [hsplit, addSamples_append, hq39, Option.some_bind]
    simp only [Plotter.addSamples]
    rw [hq]
    rfl
  · rw [hp40, List.map_cons, List.map_nil, hv40]
  · rw [hp40, List.map_cons, List.map_nil]
    show [d40.m_min] = [100]
    rw [hmin40]
  · rw [hp40, List.map_cons, List.map_nil, hnorm, List.map_cons, List.map_replicate]
    norm_num

/-! ### The iterator of the stacked pass -/

/-- On a collection of `n + 1` series the iterator visits the positions
`n, n - 1, ..., 0` and stops. -/
theorem derefPositions_nonempty (n fuel : Nat) (hfuel : n + 1 ≤ fuel) :
    derefPositions fuel ((n + 1 : Nat) : Int) =
      (List.range (n + 1)).reverse.map fun k => (k : Int) := by
  induction n generalizing fuel with
  | zero =>
    obtain ⟨f, rfl⟩ : ∃ f, fuel = f + 1 := ⟨fuel - 1, by omega⟩
    simp [derefPositions, List.range_succ]
  | succ n ih =>
    obtain ⟨f, rfl⟩ : ∃ f, fuel = f + 1 := ⟨fuel - 1, by omega⟩
    have hpos : ((n + 1 + 1 : Nat) : Int) - 1 = ((n + 1 : Nat) : Int) := by
      push_cast
      ring
    have hne : ((n + 1 : Nat) : Int) ≠ 0 := by
      push_cast
      omega
    rw [derefPositions, hpos, if_pos hne, ih f (by omega), List.range_succ (n + 1),
      List.reverse_append]
    rfl

/-- C14, evaluated on a new plotter (empty collection, stacking on): the first
position the iterator of the stacked pass dereferences is `-1`, before the
beginning of the collection, and the loop does not stop there; `normalizeData`,
reached through `geometryChanged` or through `addSample` with an empty vector,
has no defined result. -/
theorem stacked_pass_empty_collection :
    Plotter.new.m_plotData = [] ∧ Plotter.new.m_stacked = true ∧
      (∀ fuel, ∃ rest, derefPositions (fuel + 1) (Plotter.new.m_plotData.length : Int) =
        (-1) :: rest ∧ (fuel ≠ 0 → rest ≠ [])) ∧
      Plotter.new.normalizeData = none ∧
      (∀ newHeight, Plotter.new.geometryChanged newHeight = none) ∧
      Plotter.new.addSample [] = none := by
  refine ⟨rfl, rfl, ?_, rfl, fun _ => rfl, rfl⟩
  intro fuel
  have hstep : derefPositions (fuel + 1) (Plotter.new.m_plotData.length : Int) =
      (-1) :: derefPositions fuel (-1) := by
    show derefPositions (fuel + 1) 0 = _
    simp [derefPositions]
  refine ⟨derefPositions fuel (-1), hstep, ?_⟩
  intro hfuel
  obtain ⟨f, rfl⟩ : ∃ f, fuel = f + 1 := ⟨fuel - 1, by omega⟩
  simp [derefPositions]

/-! ### The fill and stroke streams of a polygon -/

theorem foldl_fillStep (height : ℚ) (p : List (ℚ × ℚ)) (m : Nat) (vertices : List (ℚ × ℚ))
    (c : Int) :
    (List.range m).foldl (fillStep height p) (vertices, c) =
      (vertices ++ (List.range m).flatMap fun i =>
          [((p.getD i (0, 0)).1, height - (p.getD i (0, 0)).2),
            (((p.getD i (0, 0)).1 + (p.getD (i + 1) (0, 0)).1) / 2, height)],
        c + 2 * (m : Int)) := by
  induction m with
  | zero => simp
  | succ m ih =>
    rw [List.range_succ, List.foldl_append, ih]
    simp only [List.foldl_cons, List.foldl_nil, fillStep, List.flatMap_append,
      List.flatMap_cons, List.flatMap_nil, List.append_nil, List.append_assoc]
    congr 1
    push_cast
    ring

theorem foldl_strokeStep (height : ℚ) (p : List (ℚ × ℚ)) (m : Nat)
    (vertices : List (ℚ × ℚ)) (c : Int) :
    (List.range m).foldl (strokeStep height p) (vertices, c) =
      (vertices ++ (List.range m).map fun i =>
          ((p.getD i (0, 0)).1, height - (p.getD i (0, 0)).2),
        c + (m : Int)) := by
  induction m with
  | zero => simp
  | succ m ih =>
    rw [List.range_succ, List.foldl_append, ih]
    simp only [List.foldl_cons, List.foldl_nil, strokeStep, List.map_append,
      List.map_cons, List.map_nil, List.append_assoc]
    congr 1
    push_cast
    ring

theorem head?_eq_getD (p : List (ℚ × ℚ)) (hp : p ≠ []) :
    p.head? = some (p.getD 0 (0, 0)) := by
  cases p with
  | nil => exact absurd rfl hp
  | cons a rest => rfl

theorem getLast?_eq_getD (p : List (ℚ × ℚ)) (hp : p ≠ []) :
    p.getLast? = some (p.getD (p.length - 1) (0, 0)) := by
  have hlen : p.length - 1 < p.length := by
    have := List.length_pos.mpr hp
    omega
  rw [List.getLast?_eq_getElem?, List.getD_eq_getElem?_getD, List.getElem?_eq_getElem hlen]
  rfl

/-- The fill part on a non-empty polygon: the vertices it appends, in closed
form, and the count it records. -/
theorem fillPolygon_eq (height : ℚ) (p : List (ℚ × ℚ)) (vertices : List (ℚ × ℚ))
    (hp : p ≠ []) :
    fillPolygon height p vertices = some
      (vertices ++ (((p.getD 0 (0, 0)).1, height) ::
        ((List.range (p.length - 1)).flatMap fun i =>
          [((p.getD i (0, 0)).1, height - (p.getD i (0, 0)).2),
            (((p.getD i (0, 0)).1 + (p.getD (i + 1) (0, 0)).1) / 2, height)]) ++
        [((p.getD (p.length - 1) (0, 0)).1, height - (p.getD (p.length - 1) (0, 0)).2),
          ((p.getD (p.length - 1) (0, 0)).1, height)]),
        2 * (p.length : Int) + 1) := by
  have hpos := List.length_pos.mpr hp
  unfold fillPolygon
  rw [head?_eq_getD p hp, getLast?_eq_getD p hp]
  simp only [foldl_fillStep, List.append_assoc, List.singleton_append, List.cons_append]
  congr 2
  omega

/-- The stroke part on a non-empty polygon: the vertices it appends, in closed
form, and the count it records. -/
theorem strokePolygon_eq (height : ℚ) (p : List (ℚ × ℚ)) (vertices : List (ℚ × ℚ))
    (hp : p ≠ []) :
    strokePolygon height p vertices = some
      (vertices ++ (((List.range (p.length - 1)).map fun i =>
          ((p.getD i (0, 0)).1, height - (p.getD i (0, 0)).2)) ++
        [((p.getD (p.length - 1) (0, 0)).1, height - (p.getD (p.length - 1) (0, 0)).2)]),
        (p.length : Int)) := by
  have hpos := List.length_pos.mpr hp
  unfold strokePolygon
  rw [getLast?_eq_getD p hp]
  simp only [foldl_strokeStep, List.append_assoc]
  congr 2
  omega

theorem length_flatMap_pairs (f g : Nat → ℚ × ℚ) (m : Nat) :
    ((List.range m).flatMap fun i => [f i, g i]).length = 2 * m := by
  induction m with
  | zero => rfl
  | succ m ih =>
    rw [List.range_succ, List.flatMap_append, List.length_append, ih]
    simp only [List.flatMap_cons, List.flatMap_nil, List.append_nil, List.length_cons,
      List.length_nil]
    omega

theorem fillStream_twoPoint :
    fillStream 10 twoPointPolygon = some [(0, 10), (0, 10), (1, 10), (2, 10), (2, 10)] := by
  unfold fillStream
  rw [fillPolygon_eq 10 twoPointPolygon [] (by simp [twoPointPolygon])]
  simp only [twoPointPolygon, Option.map_some', List.nil_append, List.length_cons,
    List.length_nil, List.range_succ, List.range_zero, List.flatMap_cons, List.flatMap_nil]
  norm_num

/-- C15 is false at the polygon `(0, 0)`, `(2, 0)` with height `10`: the code's
fill stream is `(0,10), (0,10), (1,10), (2,10), (2,10)`, whose baseline vertex
after the first curve vertex has `x = 1`, while the stream described by the claim
has a baseline vertex with `x = 0` there. -/
theorem fillStream_not_same_x :
    fillStream 10 twoPointPolygon = some [(0, 10), (0, 10), (1, 10), (2, 10), (2, 10)] ∧
      specFillStream 10 twoPointPolygon =
        some [(0, 10), (0, 10), (0, 10), (2, 10), (2, 10)] ∧
      fillStream 10 twoPointPolygon ≠ specFillStream 10 twoPointPolygon := by
  have hspec : specFillStream 10 twoPointPolygon =
      some [(0, 10), (0, 10), (0, 10), (2, 10), (2, 10)] := by
    simp only [specFillStream, twoPointPolygon, List.head?_cons, Option.map_some',
      List.flatMap_cons, List.flatMap_nil]
    norm_num
  refine ⟨fillStream_twoPoint, hspec, ?_⟩
  rw [fillStream_twoPoint, hspec]
  intro h
  simp only [Option.some.injEq, List.cons.injEq, Prod.mk.injEq] at h
  norm_num at h

/-- C15 as amended: for a polygon `p_0 .. p_{n-1}` with `n ≥ 2` the fill stream
starts with the baseline vertex `(p_0.x, height)`, then holds for every
`i < n - 1` the curve vertex `(p_i.x, height - p_i.y)` followed by the baseline
vertex at the midpoint `((p_i.x + p_{i+1}.x) / 2, height)`, and ends with the
curve vertex of `p_{n-1}` followed by the baseline vertex `(p_{n-1}.x, height)`;
it has `2n + 1` vertices. -/
theorem fillStream_midpoints (height : ℚ) (p : List (ℚ × ℚ)) (hn : 2 ≤ p.length) :
    ∃ s, fillStream height p = some s ∧ s.length = 2 * p.length + 1 ∧
      s = ((p.getD 0 (0, 0)).1, height) ::
        (((List.range (p.length - 1)).flatMap fun i =>
          [((p.getD i (0, 0)).1, height - (p.getD i (0, 0)).2),
            (((p.getD i (0, 0)).1 + (p.getD (i + 1) (0, 0)).1) / 2, height)]) ++
        [((p.getD (p.length - 1) (0, 0)).1, height - (p.getD (p.length - 1) (0, 0)).2),
          ((p.getD (p.length - 1) (0, 0)).1, height)]) := by
  have hp : p ≠ [] := by
    intro h0
    rw [h0] at hn
    exact absurd hn (by simp)
  refine ⟨_, ?_, ?_, rfl⟩
  · unfold fillStream
    rw [fillPolygon_eq height p [] hp]
    rfl
  · rw [List.length_cons, List.length_append, length_flatMap_pairs]
    simp only [List.length_cons, List.length_nil]
    omega

/-- C15 as amended, at the polygon `(0, 0)`, `(2, 0)` with height `10`. -/
theorem fillStream_midpoints_witness :
    ∃ s, fillStream 10 twoPointPolygon = some s ∧ s.length = 5 := by
  obtain ⟨s, hs, hlen, _⟩ := fillStream_midpoints 10 twoPointPolygon
    (by simp [twoPointPolygon])
  exact ⟨s, hs, by simpa [twoPointPolygon] using hlen⟩

/-! ### The interpolated path -/

theorem matMul_row3 (p : List ℚ) (xDelta x : ℚ) (i : Nat) :
    matMul catmullRomMatrix (controlPoints p xDelta x i) 3 0 = x + xDelta * 2 ∧
      matMul catmullRomMatrix (controlPoints p xDelta x i) 3 1 = p.getD (i + 1) 0 := by
  simp [matMul, catmullRomMatrix, controlPoints, entry]

theorem matMul_row0 (p : List ℚ) (xDelta x : ℚ) (i : Nat) :
    matMul catmullRomMatrix (controlPoints p xDelta x i) 0 0 = x + xDelta * 1 ∧
      matMul catmullRomMatrix (controlPoints p xDelta x i) 0 1 = p.getD (i + 0) 0 := by
  simp [matMul, catmullRomMatrix, controlPoints, entry]

/-- The loop of `Plotter::interpolate` after `m` iterations started at `x`: the
running `x`, the number of segments, and the end point of each segment. -/
theorem foldl_interpolateStep (p : List ℚ) (xDelta x : ℚ) (m : Nat) :
    ((List.range' 1 m).foldl (interpolateStep p xDelta) (x, [])).1 = x + (m : ℚ) * xDelta ∧
      ((List.range' 1 m).foldl (interpolateStep p xDelta) (x, [])).2.length = m ∧
      ∀ k, k < m →
        (((List.range' 1 m).foldl (interpolateStep p xDelta) (x, [])).2[k]?).map
            CubicSegment.endPoint =
          some (x + ((k : ℚ) + 2) * xDelta, p.getD (k + 2) 0) := by
  induction m with
  | zero =>
    refine ⟨by simp, rfl, fun k hk => absurd hk (Nat.not_lt_zero k)⟩
  | succ m ih =>
    obtain ⟨h1, h2, h3⟩ := ih
    rw [List.range'_1_concat, List.foldl_append]
    simp only [List.foldl_cons, List.foldl_nil]
    refine ⟨?_, ?_, ?_⟩
    · show ((List.range' 1 m).foldl (interpolateStep p xDelta) (x, [])).1 + xDelta = _
      rw [h1]
      push_cast
      ring
    · show (((List.range' 1 m).foldl (interpolateStep p xDelta) (x, [])).2 ++ [_]).length = _
      rw [List.length_append, h2]
      rfl
    · intro k hk
      show ((((List.range' 1 m).foldl (interpolateStep p xDelta) (x, [])).2 ++ [_])[k]?).map
        CubicSegment.endPoint = _
      by_cases hkm : k < m
      · rw [List.getElem?_append_left (by rw [h2]; exact hkm)]
        exact h3 k hkm
      · have hk_eq : k = m := by omega
        subst hk_eq
        rw [List.getElem?_append_right (by rw [h2]), h2, Nat.sub_self]
        simp only [List.getElem?_cons_zero, Option.map_some']
        rw [(matMul_row3 p xDelta _ (1 + k)).1, (matMul_row3 p xDelta _ (1 + k)).2, h1]
        congr 2
        · ring
        · congr 1
          omega

/-- The path `Plotter::interpolate` builds from at least four samples: where it
starts, how many segments it has and where each segment ends. -/
theorem interpolate_path (p : List ℚ) (x0 x1 : ℚ) (hn : 4 ≤ p.length) :
    ∃ path, Plotter.interpolate p x0 x1 = some path ∧
      path.start = (x0, p.getD 0 0) ∧ path.segments.length = p.length - 3 ∧
      ∀ k, 1 ≤ k → k ≤ p.length - 3 →
        (path.segments[k - 1]?).map CubicSegment.endPoint =
          some (x0 + (k : ℚ) * ((x1 - x0) / ((p.length : ℚ) - 3)), p.getD (k + 1) 0) := by
  have hne : (p.length : ℚ) - 3 ≠ 0 := by
    have h4 : (4 : ℚ) ≤ (p.length : ℚ) := by exact_mod_cast hn
    intro h0
    linarith
  cases hp : p with
  | nil =>
    rw [hp] at hn
    exact absurd hn (by simp)
  | cons p0 rest =>
    rw [← hp]
    obtain ⟨_, h2, h3⟩ := foldl_interpolateStep p ((x1 - x0) / ((p.length : ℚ) - 3))
      (x0 - (x1 - x0) / ((p.length : ℚ) - 3)) (p.length - 3)
    have hpath : Plotter.interpolate p x0 x1 = some
        { start := (x0, p0)
          segments := ((List.range' 1 (p.length - 3)).foldl
            (interpolateStep p ((x1 - x0) / ((p.length : ℚ) - 3)))
            (x0 - (x1 - x0) / ((p.length : ℚ) - 3), [])).2 } := by
      unfold Plotter.interpolate checkedDiv
      rw [if_neg hne, Option.some_bind]
      conv_lhs => rw [hp, List.head?_cons, Option.map_some']
      rw [← hp]
    refine ⟨_, hpath, ?_, h2, ?_⟩
    · rw [hp]
      rfl
    · intro k hk1 hk2
      have hk := h3 (k - 1) (by omega)
      rw [hk]
      congr 2
      · have hcast : ((k - 1 : Nat) : ℚ) = (k : ℚ) - 1 := by
          rw [Nat.cast_sub hk1]
          simp
        rw [hcast]
        ring
      · congr 1
        omega

/-- C16, evaluated on the samples `5, 0, 0, 0` with `x0 = 0` and `x1 = 1`: the
path has one cubic segment, which ends at `(1, p_2) = (1, 0)`, but it starts at
`(0, 5)`, the first sample, and not at `(x0, p_1) = (0, 0)`. -/
theorem interpolate_starts_at_first_sample :
    ∃ path, Plotter.interpolate kinkSamples 0 1 = some path ∧
      path.start = (0, 5) ∧ path.start ≠ (0, kinkSamples.getD 1 0) ∧
      path.segments.length = 1 ∧
      (path.segments[0]?).map CubicSegment.endPoint = some (1, kinkSamples.getD 2 0) := by
  obtain ⟨path, hpath, hstart, hlen, hend⟩ :=
    interpolate_path kinkSamples 0 1 (by simp [kinkSamples])
  have hstart5 : path.start = (0, 5) := by
    rw [hstart]
    simp [kinkSamples]
  refine ⟨path, hpath, hstart5, ?_, by simpa [kinkSamples] using hlen, ?_⟩
  · rw [hstart5]
    simp [kinkSamples]
  · have h1 := hend 1 (le_refl 1) (by simp [kinkSamples])
    rw [Nat.sub_self] at h1
    rw [h1]
    simp only [kinkSamples, List.length_cons, List.length_nil]
    norm_num

/-! ### Vertex counts and draw ranges in `Plotter::render` -/

theorem fillPolygon_vertices (height : ℚ) (p : List (ℚ × ℚ)) (vertices : List (ℚ × ℚ))
    (hp : p ≠ []) :
    fillPolygon height p vertices =
      some (vertices ++ fillVertices height p, 2 * (p.length : Int) + 1) :=
  fillPolygon_eq height p vertices hp

theorem strokePolygon_vertices (height : ℚ) (p : List (ℚ × ℚ)) (vertices : List (ℚ × ℚ))
    (hp : p ≠ []) :
    strokePolygon height p vertices =
      some (vertices ++ strokeVertices height p, (p.length : Int)) :=
  strokePolygon_eq height p vertices hp

theorem fillVertices_length (height : ℚ) (p : List (ℚ × ℚ)) (hp : p ≠ []) :
    (fillVertices height p).length = 2 * p.length + 1 := by
  have hpos := List.length_pos.mpr hp
  unfold fillVertices
  rw [List.length_cons, List.length_append, length_flatMap_pairs]
  simp only [List.length_cons, List.length_nil]
  omega

theorem strokeVertices_length (height : ℚ) (p : List (ℚ × ℚ)) (hp : p ≠ []) :
    (strokeVertices height p).length = p.length := by
  have hpos := List.length_pos.mpr hp
  unfold strokeVertices
  rw [List.length_append, List.length_map, List.length_range]
  simp only [List.length_cons, List.length_nil]
  omega

/-- Tessellation of one series that has a single non-empty polygon. -/
theorem tessellate_single (height : ℚ) (key : Nat) (p : List (ℚ × ℚ)) (t : Tessellation)
    (hp : p ≠ []) :
    (fillPolygons height key [p] t).bind (strokePolygons height key [p]) = some
      { vertices := t.vertices ++ fillVertices height p ++ strokeVertices height p
        verticesCounts := fun k =>
          if k = key then (2 * (p.length : Int) + 1, (p.length : Int))
          else t.verticesCounts k } := by
  simp only [fillPolygons, strokePolygons, fillPolygon_vertices height p _ hp,
    strokePolygon_vertices height p _ hp, Option.some_bind]
  congr 2
  funext k
  by_cases hk : k = key
  · simp [hk]
  · simp [hk]

/-- Tessellation of a collection of series with distinct keys and one non-empty
polygon each: the buffer and the recorded counts. -/
theorem tessellate_all (height : ℚ) (series : List (Nat × List (ℚ × ℚ))) (t : Tessellation)
    (hn : ∀ s ∈ series, s.2 ≠ []) (hkeys : (series.map Prod.fst).Nodup) :
    ∃ out, tessellate height (series.map fun s => (s.1, [s.2])) t = some out ∧
      out.vertices = t.vertices ++
        series.flatMap (fun s => fillVertices height s.2 ++ strokeVertices height s.2) ∧
      (∀ s ∈ series, out.verticesCounts s.1 =
        (2 * (s.2.length : Int) + 1, (s.2.length : Int))) ∧
      (∀ key, key ∉ series.map Prod.fst → out.verticesCounts key = t.verticesCounts key) := by
  induction series generalizing t with
  | nil => exact ⟨t, rfl, by simp, by simp, fun _ _ => rfl⟩
  | cons s rest ih =>
    have hs : s.2 ≠ [] := hn s (List.mem_cons_self s rest)
    rw [List.map_cons, List.nodup_cons] at hkeys
    obtain ⟨out, hout, hv, hc, hother⟩ := ih
      { vertices := t.vertices ++ fillVertices height s.2 ++ strokeVertices height s.2
        verticesCounts := fun k =>
          if k = s.1 then (2 * (s.2.length : Int) + 1, (s.2.length : Int))
          else t.verticesCounts k }
      (fun x hx => hn x (List.mem_cons_of_mem s hx)) hkeys.2
    refine ⟨out, ?_, ?_, ?_, ?_⟩
    · simp only [List.map_cons, tessellate]
      rw [tessellate_single height s.1 s.2 t hs, Option.some_bind]
      exact hout
    · rw [hv]
      simp only [List.flatMap_cons, List.append_assoc]
    · intro x hx
      rcases List.mem_cons.mp hx with hx | hx
      · subst hx
        rw [hother x.1 hkeys.1]
        simp
      · exact hc x hx
    · intro key hkey
      rw [List.map_cons, List.mem_cons, not_or] at hkey
      rw [hother key hkey.2]
      simp [hkey.1]

/-- The draw loop on a buffer laid out as a prefix followed by the fill and
stroke vertices of every series: the calls cover the series' vertices one after
the other. -/
theorem drawSeries_cover (height : ℚ) (lines : Int) (counts : Nat → Int × Int)
    (series : List (Nat × List (ℚ × ℚ))) (done : List (ℚ × ℚ)) (oldCount : Int × Int)
    (hn : ∀ s ∈ series, s.2 ≠ [])
    (hcounts : ∀ s ∈ series, counts s.1 = (2 * (s.2.length : Int) + 1, (s.2.length : Int)))
    (hdone : (done.length : Int) = lines * 2 + oldCount.1 + oldCount.2) :
    rangesCover height
      (done ++ series.flatMap fun s => fillVertices height s.2 ++ strokeVertices height s.2)
      (done.length : Int) series
      (drawSeries lines counts (series.map Prod.fst) oldCount) := by
  induction series generalizing done oldCount with
  | nil => exact trivial
  | cons s rest ih =>
    have hs : s.2 ≠ [] := hn s (List.mem_cons_self s rest)
    have hc := hcounts s (List.mem_cons_self s rest)
    have hF := fillVertices_length height s.2 hs
    have hT := strokeVertices_length height s.2 hs
    have hnext := ih (done ++ fillVertices height s.2 ++ strokeVertices height s.2)
      (oldCount.1 + (counts s.1).1, oldCount.2 + (counts s.1).2)
      (fun x hx => hn x (List.mem_cons_of_mem s hx))
      (fun x hx => hcounts x (List.mem_cons_of_mem s hx))
      (by
        rw [List.length_append, List.length_append, hF, hT, hc]
        push_cast
        linarith)
    simp only [List.map_cons, drawSeries, rangesCover, List.flatMap_cons]
    refine ⟨trivial, hdone.symm, Int.natCast_nonneg _, ?_, ?_, trivial, ?_, ?_, ?_, ?_⟩
    · rw [hc, hF]
      push_cast
      ring
    · unfold slice
      simp only [hc, ← hdone, Int.toNat_ofNat]
      have h1 : (2 * (s.2.length : Int) + 1).toNat = (fillVertices height s.2).length := by
        rw [hF]
        omega
      rw [h1, List.drop_left, List.append_assoc, List.take_left]
    · rw [hc]
      linarith
    · rw [hc, hT]
    · unfold slice
      have h1 : (lines * 2 + (oldCount.1 + (counts s.1).1) + oldCount.2).toNat =
          (done ++ fillVertices height s.2).length := by
        rw [List.length_append, hF, hc]
        omega
      have h2 : ((counts s.1).2).toNat = (strokeVertices height s.2).length := by
        rw [hT, hc]
        omega
      simp only [h1, h2]
      rw [← List.append_assoc, ← List.append_assoc, List.append_assoc _ _ (List.flatMap _ _),
        List.drop_left, List.take_left]
    · have hstart : lines * 2 + (oldCount.1 + (counts s.1).1) + oldCount.2 + (counts s.1).2 =
          ((done ++ fillVertices height s.2 ++ strokeVertices height s.2).length : Int) := by
        rw [List.length_append, List.length_append, hF, hT, hc]
        push_cast
        linarith
      rw [hstart]
      have hv : done ++ (fillVertices height s.2 ++ strokeVertices height s.2 ++
          rest.flatMap fun s => fillVertices height s.2 ++ strokeVertices height s.2) =
          done ++ fillVertices height s.2 ++ strokeVertices height s.2 ++
            rest.flatMap fun s => fillVertices height s.2 ++ strokeVertices height s.2 := by
        simp only [List.append_assoc]
      rw [hv]
      exact hnext

theorem lineCount_nonneg (height : ℚ) (hh : 0 ≤ height) : 0 ≤ lineCount height := by
  have h1 : (0 : ℚ) ≤ height / 20 + 1 := by positivity
  unfold lineCount truncToInt
  rw [if_pos h1]
  exact Int.floor_nonneg.mpr h1

theorem gridVertices_length (width : ℚ) (lines : Int) (hl : 0 ≤ lines) :
    ((gridVertices width lines).length : Int) = lines * 2 := by
  unfold gridVertices
  rw [length_flatMap_pairs]
  push_cast
  rw [Int.toNat_of_nonneg hl]
  ring

/-- C17: for series with distinct keys that each yield one flattened polygon of
at least two points, in a plotter of non-negative height, `Plotter::render`
returns; for every series the recorded fill count is `2n + 1` and the recorded
stroke count is `n`, the numbers of vertices the fill and stroke parts append;
the buffer starts with the `2 * lineCount` gridline vertices, the first draw call
is the gridline call, and the following calls start at `2 * lineCount`, are
contiguous, and cover for each series exactly its fill vertices, then exactly its
stroke vertices. -/
theorem render_counts_and_ranges (width height : ℚ) (series : List (Nat × List (ℚ × ℚ)))
    (hh : 0 ≤ height) (hkeys : (series.map Prod.fst).Nodup)
    (hn : ∀ s ∈ series, 2 ≤ s.2.length) :
    ∃ out, Plotter.render width height (series.map fun s => (s.1, [s.2])) = some out ∧
      (∀ s ∈ series,
        out.verticesCounts s.1 = (2 * (s.2.length : Int) + 1, (s.2.length : Int)) ∧
        fillStream height s.2 = some (fillVertices height s.2) ∧
        (fillVertices height s.2).length = 2 * s.2.length + 1 ∧
        strokeStream height s.2 = some (strokeVertices height s.2) ∧
        (strokeVertices height s.2).length = s.2.length) ∧
      out.vertices.take (gridVertices width (lineCount height)).length =
        gridVertices width (lineCount height) ∧
      ((gridVertices width (lineCount height)).length : Int) = lineCount height * 2 ∧
      out.draws.head? =
        some { mode := DrawMode.lines, first := 0, count := lineCount height * 2 } ∧
      rangesCover height out.vertices (lineCount height * 2) series out.draws.tail := by
  have hne : ∀ s ∈ series, s.2 ≠ [] := by
    intro s hs h0
    have := hn s hs
    rw [h0] at this
    exact absurd this (by simp)
  have hgrid := gridVertices_length width (lineCount height) (lineCount_nonneg height hh)
  obtain ⟨t, ht, hv, hc, _⟩ := tessellate_all height series
    { vertices := gridVertices width (lineCount height), verticesCounts := fun _ => (0, 0) }
    hne hkeys
  have hcover := drawSeries_cover height (lineCount height) t.verticesCounts series
    (gridVertices width (lineCount height)) (0, 0) hne hc (by rw [hgrid]; simp)
  have hrender : Plotter.render width height (series.map fun s => (s.1, [s.2])) = some
      { vertices := t.vertices
        verticesCounts := t.verticesCounts
        draws :=
          { mode := DrawMode.lines, first := 0, count := lineCount height * 2 } ::
            drawSeries (lineCount height) t.verticesCounts
              ((series.map fun s => (s.1, [s.2])).map Prod.fst) (0, 0) } := by
    unfold Plotter.render
    rw [ht]
    rfl
  have hkeysmap : (series.map fun s => (s.1, [s.2])).map Prod.fst = series.map Prod.fst := by
    rw [List.map_map]
    rfl
  refine ⟨_, hrender, ?_, ?_, hgrid, rfl, ?_⟩
  · intro s hs
    refine ⟨hc s hs, ?_, fillVertices_length height s.2 (hne s hs), ?_,
      strokeVertices_length height s.2 (hne s hs)⟩
    · unfold fillStream
      rw [fillPolygon_vertices height s.2 [] (hne s hs)]
      rfl
    · unfold strokeStream
      rw [strokePolygon_vertices height s.2 [] (hne s hs)]
      rfl
  · show t.vertices.take _ = _
    rw [hv, List.take_left]
  · show rangesCover height t.vertices _ series (drawSeries _ _ _ _)
    rw [hkeysmap, hv, ← hgrid]
    exact hcover

/-- C17 at two series with the keys `7` and `9` and polygons of two and three
points, in a plotter of height `40`: the recorded counts are `(5, 2)` and
`(7, 3)`. -/
theorem render_counts_and_ranges_witness :
    ∃ out, Plotter.render 100 40 (renderExample.map fun s => (s.1, [s.2])) = some out ∧
      out.verticesCounts 7 = (5, 2) ∧ out.verticesCounts 9 = (7, 3) := by
  obtain ⟨out, hout, hcounts, _⟩ := render_counts_and_ranges 100 40 renderExample
    (by norm_num) (by simp [renderExample]) (by simp [renderExample])
  refine ⟨out, hout, ?_, ?_⟩
  · have h := (hcounts (7, [(0, 0), (2, 0)]) (by simp [renderExample])).1
    simpa using h
  · have h := (hcounts (9, [(0, 1), (1, 2), (2, 1)]) (by simp [renderExample])).1
    simpa using h

/-! ### The offsets of the two Lanczos passes -/

/-- Whatever the sizes, the second pass uploads the array of the first pass. -/
theorem lanczos_same_uploads (sourceWidth sourceHeight targetWidth : Int)
    (u : LanczosUploads)
    (h : LanczosRenderer.render sourceWidth sourceHeight targetWidth = some u) :
    u.secondPass = u.firstPass := by
  unfold LanczosRenderer.render at h
  cases hdx : checkedDiv (sourceWidth : ℚ) (targetWidth : ℚ) with
  | none =>
    rw [hdx] at h
    exact absurd h (by simp)
  | some dx =>
    rw [hdx, Option.some_bind] at h
    cases ho : createOffsets (kernelSize dx) (sourceWidth : ℚ) Orientation.horizontal with
    | none =>
      rw [ho] at h
      exact absurd h (by simp)
    | some offsets =>
      rw [ho, Option.some_bind] at h
      cases hv : createOffsets 16 (sourceHeight : ℚ) Orientation.vertical with
      | none =>
        rw [hv] at h
        exact absurd h (by simp)
      | some ignored =>
        rw [hv, Option.map_some', Option.some.injEq] at h
        rw [← h]

theorem kernelSize_two : kernelSize 2 = 4 := by
  have h : ⌈(2 : ℚ) * 2⌉ = 4 := by
    rw [show (2 : ℚ) * 2 = ((4 : Int) : ℚ) by norm_num, Int.ceil_intCast]
  unfold kernelSize qBound
  rw [h]
  decide

theorem createOffsets_entry_one (count : Int) (width : ℚ) (direction : Orientation)
    (hc1 : 1 < count) (hc2 : count ≤ 16) (hw : width ≠ 0) :
    ∃ offsets, createOffsets count width direction = some offsets ∧
      offsets[1]? = some (if direction = Orientation.horizontal then (1 / width, 0)
        else (0, 1 / width)) := by
  unfold createOffsets
  rw [if_neg (not_lt.mpr hc2), if_neg (fun h => hw h.2)]
  refine ⟨_, rfl, ?_⟩
  rw [List.getElem?_map, List.getElem?_range (by norm_num)]
  simp only [Option.map_some', Nat.cast_one]
  rw [if_pos hc1]

/-- C18, evaluated on a source of size `4 × 2` and a target of width `2`: the
first pass uploads horizontal offsets, entry `1` being `(1/4, 0)`; the second
pass uploads the same array, so its entry `1` is `(1/4, 0)` and not the vertical
offset `(0, 1/2)` that the second `createOffsets` call computes and drops. -/
theorem lanczos_second_pass_horizontal :
    ∃ u, LanczosRenderer.render 4 2 2 = some u ∧
      u.firstPass[1]? = some (1 / 4, 0) ∧ u.secondPass[1]? = some (1 / 4, 0) ∧
      u.secondPass[1]? ≠ some (0, 1 / 2) ∧
      (createOffsets 16 2 Orientation.vertical).bind (fun o => o[1]?) = some (0, 1 / 2) := by
  have hdx : checkedDiv ((4 : Int) : ℚ) ((2 : Int) : ℚ) = some 2 := by
    unfold checkedDiv
    rw [if_neg (by norm_num)]
    norm_num
  obtain ⟨offsets, hoff, h1⟩ := createOffsets_entry_one 4 ((4 : Int) : ℚ)
    Orientation.horizontal (by norm_num) (by norm_num) (by norm_num)
  obtain ⟨vert, hvert, hv1⟩ := createOffsets_entry_one 16 ((2 : Int) : ℚ)
    Orientation.vertical (by norm_num) (by norm_num) (by norm_num)
  have hrender : LanczosRenderer.render 4 2 2 =
      some { firstPass := offsets, secondPass := offsets } := by
    unfold LanczosRenderer.render
    rw [hdx, Option.some_bind, kernelSize_two, hoff, Option.some_bind, hvert]
    rfl
  have h1' : offsets[1]? = some (1 / 4, 0) := by
    rw [h1, if_pos rfl]
    norm_num
  refine ⟨_, hrender, h1', h1', ?_, ?_⟩
  · show offsets[1]? ≠ some (0, 1 / 2)
    rw [h1']
    intro h
    simp only [Option.some.injEq, Prod.mk.injEq] at h
    norm_num at h
  · have hvert2 : createOffsets 16 2 Orientation.vertical = some vert := by
      rw [← hvert]
      norm_num
    rw [hvert2, Option.some_bind, hv1, if_neg (by decide)]
    norm_num

end Plotting
